import Mathlib

/-!
# CSS color mangling (`internal/css_parser/css_decls.go`)

A shallow embedding of the color canonicaliser `mangleColor` and of the helpers and
tables it reads.

* Go strings are byte sequences and are represented as `List Nat`, one natural number
  per byte; the statements hold for every list, in particular for every list of bytes.
* Go `int` values are represented as `Int` (no value here comes near the 64-bit range).
* An index expression `text[i]` that is out of range is a run-time fault in Go; it is
  represented by `none` in the `Option` monad, so that `mangleColor` returning `some`
  says that no index was out of range.
* `strings.ToLower` and the `%c` verb of `fmt.Sprintf` belong to the Go standard
  library.  They are modelled after their implementation (ASCII fast path, UTF-8
  decoding and encoding); the Unicode case tables behind `unicode.ToLower` for
  non-ASCII runes are a parameter `lowerCase`, and every statement holds for every
  choice of it.
-/

namespace CssDecls

/-! ## Data model -/

/-- Modelled from the spec: the token kinds of `css_lexer.T`.  The source only
distinguishes `TIdent`, `THash` and `THashID`; every other kind of the lexer is
represented by `TOther` carrying its numeric code. -/
inductive T where
  | TIdent
  | THash
  | THashID
  | TOther (code : Nat)
  deriving DecidableEq

/-- Modelled from the spec: the color token of `css_ast.Token`, a kind and the raw
text (bytes of the Go string). -/
structure Token where
  Kind : T
  Text : List Nat
  deriving DecidableEq

/-- Bytes of an ASCII string literal. -/
def bytes (s : String) : List Nat := s.toList.map Char.toNat

/-! ## Tables -/

/-- The map `shortColorName` (names that are shorter than their hex codes), as an
association list in source order. -/
def shortColorName : List (Int × List Nat) := [
  (0x000080, bytes "navy"),
  (0x008000, bytes "green"),
  (0x008080, bytes "teal"),
  (0x4b0082, bytes "indigo"),
  (0x800000, bytes "maroon"),
  (0x800080, bytes "purple"),
  (0x808000, bytes "olive"),
  (0x808080, bytes "gray"),
  (0xa0522d, bytes "sienna"),
  (0xa52a2a, bytes "brown"),
  (0xc0c0c0, bytes "silver"),
  (0xcd853f, bytes "peru"),
  (0xd2b48c, bytes "tan"),
  (0xda70d6, bytes "orchid"),
  (0xdda0dd, bytes "plum"),
  (0xee82ee, bytes "violet"),
  (0xf0e68c, bytes "khaki"),
  (0xf0ffff, bytes "azure"),
  (0xf5deb3, bytes "wheat"),
  (0xf5f5dc, bytes "beige"),
  (0xfa8072, bytes "salmon"),
  (0xfaf0e6, bytes "linen"),
  (0xff0000, bytes "red"),
  (0xff6347, bytes "tomato"),
  (0xff7f50, bytes "coral"),
  (0xffa500, bytes "orange"),
  (0xffc0cb, bytes "pink"),
  (0xffd700, bytes "gold"),
  (0xffe4c4, bytes "bisque"),
  (0xfffafa, bytes "snow"),
  (0xfffff0, bytes "ivory")]

/-- The map `shortColorHex` (names that are longer than their hex codes), as an
association list in source order. -/
def shortColorHex : List (List Nat × List Nat) := [
  (bytes "aliceblue", bytes "#f0f8ff"),
  (bytes "antiquewhite", bytes "#faebd7"),
  (bytes "aquamarine", bytes "#7fffd4"),
  (bytes "black", bytes "#000"),
  (bytes "blanchedalmond", bytes "#ffebcd"),
  (bytes "blueviolet", bytes "#8a2be2"),
  (bytes "burlywood", bytes "#deb887"),
  (bytes "cadetblue", bytes "#5f9ea0"),
  (bytes "chartreuse", bytes "#7fff00"),
  (bytes "chocolate", bytes "#d2691e"),
  (bytes "cornflowerblue", bytes "#6495ed"),
  (bytes "cornsilk", bytes "#fff8dc"),
  (bytes "darkblue", bytes "#00008b"),
  (bytes "darkcyan", bytes "#008b8b"),
  (bytes "darkgoldenrod", bytes "#b8860b"),
  (bytes "darkgray", bytes "#a9a9a9"),
  (bytes "darkgreen", bytes "#006400"),
  (bytes "darkgrey", bytes "#a9a9a9"),
  (bytes "darkkhaki", bytes "#bdb76b"),
  (bytes "darkmagenta", bytes "#8b008b"),
  (bytes "darkolivegreen", bytes "#556b2f"),
  (bytes "darkorange", bytes "#ff8c00"),
  (bytes "darkorchid", bytes "#9932cc"),
  (bytes "darksalmon", bytes "#e9967a"),
  (bytes "darkseagreen", bytes "#8fbc8f"),
  (bytes "darkslateblue", bytes "#483d8b"),
  (bytes "darkslategray", bytes "#2f4f4f"),
  (bytes "darkslategrey", bytes "#2f4f4f"),
  (bytes "darkturquoise", bytes "#00ced1"),
  (bytes "darkviolet", bytes "#9400d3"),
  (bytes "deeppink", bytes "#ff1493"),
  (bytes "deepskyblue", bytes "#00bfff"),
  (bytes "dodgerblue", bytes "#1e90ff"),
  (bytes "firebrick", bytes "#b22222"),
  (bytes "floralwhite", bytes "#fffaf0"),
  (bytes "forestgreen", bytes "#228b22"),
  (bytes "fuchsia", bytes "#f0f"),
  (bytes "gainsboro", bytes "#dcdcdc"),
  (bytes "ghostwhite", bytes "#f8f8ff"),
  (bytes "goldenrod", bytes "#daa520"),
  (bytes "greenyellow", bytes "#adff2f"),
  (bytes "honeydew", bytes "#f0fff0"),
  (bytes "indianred", bytes "#cd5c5c"),
  (bytes "lavender", bytes "#e6e6fa"),
  (bytes "lavenderblush", bytes "#fff0f5"),
  (bytes "lawngreen", bytes "#7cfc00"),
  (bytes "lemonchiffon", bytes "#fffacd"),
  (bytes "lightblue", bytes "#add8e6"),
  (bytes "lightcoral", bytes "#f08080"),
  (bytes "lightcyan", bytes "#e0ffff"),
  (bytes "lightgoldenrodyellow", bytes "#fafad2"),
  (bytes "lightgray", bytes "#d3d3d3"),
  (bytes "lightgreen", bytes "#90ee90"),
  (bytes "lightgrey", bytes "#d3d3d3"),
  (bytes "lightpink", bytes "#ffb6c1"),
  (bytes "lightsalmon", bytes "#ffa07a"),
  (bytes "lightseagreen", bytes "#20b2aa"),
  (bytes "lightskyblue", bytes "#87cefa"),
  (bytes "lightslategray", bytes "#789"),
  (bytes "lightslategrey", bytes "#789"),
  (bytes "lightsteelblue", bytes "#b0c4de"),
  (bytes "lightyellow", bytes "#ffffe0"),
  (bytes "limegreen", bytes "#32cd32"),
  (bytes "magenta", bytes "#f0f"),
  (bytes "mediumaquamarine", bytes "#66cdaa"),
  (bytes "mediumblue", bytes "#0000cd"),
  (bytes "mediumorchid", bytes "#ba55d3"),
  (bytes "mediumpurple", bytes "#9370db"),
  (bytes "mediumseagreen", bytes "#3cb371"),
  (bytes "mediumslateblue", bytes "#7b68ee"),
  (bytes "mediumspringgreen", bytes "#00fa9a"),
  (bytes "mediumturquoise", bytes "#48d1cc"),
  (bytes "mediumvioletred", bytes "#c71585"),
  (bytes "midnightblue", bytes "#191970"),
  (bytes "mintcream", bytes "#f5fffa"),
  (bytes "mistyrose", bytes "#ffe4e1"),
  (bytes "moccasin", bytes "#ffe4b5"),
  (bytes "navajowhite", bytes "#ffdead"),
  (bytes "olivedrab", bytes "#6b8e23"),
  (bytes "orangered", bytes "#ff4500"),
  (bytes "palegoldenrod", bytes "#eee8aa"),
  (bytes "palegreen", bytes "#98fb98"),
  (bytes "paleturquoise", bytes "#afeeee"),
  (bytes "palevioletred", bytes "#db7093"),
  (bytes "papayawhip", bytes "#ffefd5"),
  (bytes "peachpuff", bytes "#ffdab9"),
  (bytes "powderblue", bytes "#b0e0e6"),
  (bytes "rebeccapurple", bytes "#663399"),
  (bytes "rosybrown", bytes "#bc8f8f"),
  (bytes "royalblue", bytes "#4169e1"),
  (bytes "saddlebrown", bytes "#8b4513"),
  (bytes "sandybrown", bytes "#f4a460"),
  (bytes "seagreen", bytes "#2e8b57"),
  (bytes "seashell", bytes "#fff5ee"),
  (bytes "slateblue", bytes "#6a5acd"),
  (bytes "slategray", bytes "#708090"),
  (bytes "slategrey", bytes "#708090"),
  (bytes "springgreen", bytes "#00ff7f"),
  (bytes "steelblue", bytes "#4682b4"),
  (bytes "turquoise", bytes "#40e0d0"),
  (bytes "white", bytes "#fff"),
  (bytes "whitesmoke", bytes "#f5f5f5"),
  (bytes "yellow", bytes "#ff0"),
  (bytes "yellowgreen", bytes "#9acd32")]

/-! ## Hex helpers -/

/-- Go `hex1`: value of a lower-case hex digit character. -/
def hex1 (c : Int) : Int :=
  if c ≥ 97 then c + (10 - 97) else c - 48

/-- Go `hex6`: the 24-bit value of six lower-case hex digit characters. -/
def hex6 (r1 r2 g1 g2 b1 b2 : Int) : Int :=
  Int.lor (Int.lor (Int.lor (Int.lor (Int.lor
    (hex1 r1 <<< (20 : Int)) (hex1 r2 <<< (16 : Int))) (hex1 g1 <<< (12 : Int)))
    (hex1 g2 <<< (8 : Int))) (hex1 b1 <<< (4 : Int))) (hex1 b2)

/-- Go `hex3`: the 24-bit value of three hex digits, each doubled. -/
def hex3 (r g b : Int) : Int :=
  hex6 r r g g b b

/-- Go `toLowerHex`: the lower-cased character of a hex digit and whether the byte
is a hex digit at all. -/
def toLowerHex (c : Nat) : Int × Bool :=
  if 48 ≤ c ∧ c ≤ 57 then ((c : Int), true)
  else if 97 ≤ c ∧ c ≤ 102 then ((c : Int), true)
  else if 65 ≤ c ∧ c ≤ 70 then ((c : Int) + (97 - 65), true)
  else (0, false)

/-! ## Go standard library: UTF-8 and `strings.ToLower`, `fmt.Sprintf("%c")` -/

/-- Go `utf8.RuneError`. -/
def RuneError : Nat := 0xFFFD

/-- Go `utf8.AppendRune`: the UTF-8 encoding of a rune; runes out of range and
surrogates are encoded as `RuneError`. -/
def encodeRune (r : Nat) : List Nat :=
  if r ≤ 0x7F then [r]
  else if r ≤ 0x7FF then [0xC0 ||| (r >>> 6), 0x80 ||| (r &&& 0x3F)]
  else if r > 0x10FFFF ∨ (0xD800 ≤ r ∧ r ≤ 0xDFFF) then [0xEF, 0xBF, 0xBD]
  else if r ≤ 0xFFFF then
    [0xE0 ||| (r >>> 12), 0x80 ||| ((r >>> 6) &&& 0x3F), 0x80 ||| (r &&& 0x3F)]
  else
    [0xF0 ||| (r >>> 18), 0x80 ||| ((r >>> 12) &&& 0x3F), 0x80 ||| ((r >>> 6) &&& 0x3F),
      0x80 ||| (r &&& 0x3F)]

/-- Go `utf8.DecodeRuneInString`: the first rune of a byte string and its width in
bytes; an invalid or truncated encoding gives `(RuneError, 1)`. -/
def decodeRune (s : List Nat) : Nat × Nat :=
  match s with
  | [] => (RuneError, 0)
  | s0 :: rest =>
    if s0 < 0x80 then (s0, 1)
    else if s0 < 0xC2 ∨ 0xF4 < s0 then (RuneError, 1)
    else
      let sz : Nat := if s0 < 0xE0 then 2 else if s0 < 0xF0 then 3 else 4
      let lo : Nat := if s0 = 0xE0 then 0xA0 else if s0 = 0xF0 then 0x90 else 0x80
      let hi : Nat := if s0 = 0xED then 0x9F else if s0 = 0xF4 then 0x8F else 0xBF
      if s.length < sz then (RuneError, 1)
      else
        match rest with
        | [] => (RuneError, 1)
        | s1 :: rest1 =>
          if s1 < lo ∨ hi < s1 then (RuneError, 1)
          else if sz ≤ 2 then (((s0 &&& 0x1F) <<< 6) ||| (s1 &&& 0x3F), 2)
          else
            match rest1 with
            | [] => (RuneError, 1)
            | s2 :: rest2 =>
              if s2 < 0x80 ∨ 0xBF < s2 then (RuneError, 1)
              else if sz ≤ 3 then
                (((s0 &&& 0x0F) <<< 12) ||| ((s1 &&& 0x3F) <<< 6) ||| (s2 &&& 0x3F), 3)
              else
                match rest2 with
                | [] => (RuneError, 1)
                | s3 :: _ =>
                  if s3 < 0x80 ∨ 0xBF < s3 then (RuneError, 1)
                  else
                    (((s0 &&& 0x07) <<< 18) ||| ((s1 &&& 0x3F) <<< 12) |||
                      ((s2 &&& 0x3F) <<< 6) ||| (s3 &&& 0x3F), 4)

/-- The runes a Go `for _, c := range s` loop yields: `skip` bytes of the current
rune are still to be passed over. -/
def rangeRunes : List Nat → Nat → List Nat
  | [], _ => []
  | _ :: rest, skip + 1 => rangeRunes rest skip
  | c :: rest, 0 => (decodeRune (c :: rest)).1 :: rangeRunes rest ((decodeRune (c :: rest)).2 - 1)

/-- Go `unicode.ToLower`: ASCII is handled directly, every other rune goes through
the Unicode case tables `lowerCase` (Go `unicode.To(unicode.LowerCase, r)`). -/
def unicodeToLower (lowerCase : Nat → Nat) (r : Nat) : Nat :=
  if r ≤ 0x7F then (if 65 ≤ r ∧ r ≤ 90 then r + (97 - 65) else r)
  else lowerCase r

/-- Go `strings.ToLower`: an ASCII-only string is lower-cased byte by byte, any
other string is decoded rune by rune, mapped by `unicode.ToLower` and re-encoded
(`strings.Map`). -/
def ToLower (lowerCase : Nat → Nat) (s : List Nat) : List Nat :=
  if s.all (fun c => decide (c < 0x80)) then
    s.map (fun c => if 65 ≤ c ∧ c ≤ 90 then c + (97 - 65) else c)
  else
    ((rangeRunes s 0).map (fun r => encodeRune (unicodeToLower lowerCase r))).flatten

/-- Go `fmt` verb `%c` applied to an `int`: the UTF-8 encoding of the rune, with
`RuneError` for a value outside the rune range. -/
def fmtC (c : Int) : List Nat :=
  if c < 0 ∨ c > 0x10FFFF then encodeRune RuneError else encodeRune c.toNat

/-! ## The canonicaliser -/

/-- Go `mangleColor`.  The result is `none` exactly when an index expression
`text[i]` is out of range. -/
def mangleColor (lowerCase : Nat → Nat) (token : Token) : Option Token :=
  match token.Kind with
  | T.TIdent =>
    match shortColorHex.lookup (ToLower lowerCase token.Text) with
    | some hex => some { token with Text := hex }
    | none => some token
  | T.THash | T.THashID =>
    let text := token.Text
    if text.length = 4 then do
      -- "#ff0" => "red"
      let r := toLowerHex (← text[1]?)
      let g := toLowerHex (← text[2]?)
      let b := toLowerHex (← text[3]?)
      if r.2 && g.2 && b.2 then
        match shortColorName.lookup (hex3 r.1 g.1 b.1) with
        | some name => some { token with Kind := T.TIdent, Text := name }
        | none => some token
      else some token
    else if text.length = 5 then do
      -- "#123f" => "#123"
      let r := toLowerHex (← text[1]?)
      let g := toLowerHex (← text[2]?)
      let b := toLowerHex (← text[3]?)
      let a := toLowerHex (← text[4]?)
      if r.2 && g.2 && b.2 && a.2 && a.1 == 102 then
        match shortColorName.lookup (hex3 r.1 g.1 b.1) with
        | some name => some { token with Kind := T.TIdent, Text := name }
        | none => some { token with Text := [35] ++ fmtC r.1 ++ fmtC g.1 ++ fmtC b.1 }
      else some token
    else if text.length = 7 then do
      -- "#112233" => "#123"
      let r1 := toLowerHex (← text[1]?)
      let r2 := toLowerHex (← text[2]?)
      let g1 := toLowerHex (← text[3]?)
      let g2 := toLowerHex (← text[4]?)
      let b1 := toLowerHex (← text[5]?)
      let b2 := toLowerHex (← text[6]?)
      if r1.2 && r2.2 && g1.2 && g2.2 && b1.2 && b2.2 then
        match shortColorName.lookup (hex6 r1.1 r2.1 g1.1 g2.1 b1.1 b2.1) with
        | some name => some { token with Kind := T.TIdent, Text := name }
        | none =>
          if r1.1 == r2.1 && g1.1 == g2.1 && b1.1 == b2.1 then
            some { token with Text := [35] ++ fmtC r1.1 ++ fmtC g1.1 ++ fmtC b1.1 }
          else some token
      else some token
    else if text.length = 9 then do
      -- "#11223344" => "#1234"
      let r1 := toLowerHex (← text[1]?)
      let r2 := toLowerHex (← text[2]?)
      let g1 := toLowerHex (← text[3]?)
      let g2 := toLowerHex (← text[4]?)
      let b1 := toLowerHex (← text[5]?)
      let b2 := toLowerHex (← text[6]?)
      let a1 := toLowerHex (← text[7]?)
      let a2 := toLowerHex (← text[8]?)
      if r1.2 && r2.2 && g1.2 && g2.2 && b1.2 && b2.2 && a1.2 && a2.2 && a1.1 == a2.1 then
        if a1.1 == 102 then
          match shortColorName.lookup (hex6 r1.1 r2.1 g1.1 g2.1 b1.1 b2.1) with
          | some name => some { token with Kind := T.TIdent, Text := name }
          | none =>
            if r1.1 == r2.1 && g1.1 == g2.1 && b1.1 == b2.1 then
              some { token with Text := [35] ++ fmtC r1.1 ++ fmtC g1.1 ++ fmtC b1.1 }
            else
              some { token with
                Text := [35] ++ fmtC r1.1 ++ fmtC r2.1 ++ fmtC g1.1 ++ fmtC g2.1 ++ fmtC b1.1 ++ fmtC b2.1 }
        else if r1.1 == r2.1 && g1.1 == g2.1 && b1.1 == b2.1 then
          some { token with Text := [35] ++ fmtC r1.1 ++ fmtC g1.1 ++ fmtC b1.1 ++ fmtC a1.1 }
        else some token
      else some token
    else some token
  | T.TOther _ => some token

/-! ## Vocabulary of the statements -/

/-- A byte that is a hex digit (`0-9`, `a-f`, `A-F`). -/
def isHexDigit (c : Nat) : Prop :=
  (48 ≤ c ∧ c ≤ 57) ∨ (97 ≤ c ∧ c ≤ 102) ∨ (65 ≤ c ∧ c ≤ 70)

instance (c : Nat) : Decidable (isHexDigit c) := by
  unfold isHexDigit; infer_instance

/-- ASCII case folding of a hex digit byte. -/
def foldHex (c : Nat) : Nat := if 65 ≤ c ∧ c ≤ 70 then c + 32 else c

/-- The numeric value of a hex digit byte. -/
def hexVal (c : Nat) : Nat :=
  if 97 ≤ c then c - 87 else if 65 ≤ c then c - 55 else c - 48

/-- The 24-bit number with the given six hex digit values. -/
def rgb24 (a b c d e f : Nat) : Nat :=
  a * 1048576 + b * 65536 + c * 4096 + d * 256 + e * 16 + f

/-- A token kind of the `THash, THashID` case. -/
def isHashKind (k : T) : Prop := k = T.THash ∨ k = T.THashID

instance (k : T) : Decidable (isHashKind k) := by
  unfold isHashKind; infer_instance

/-- All three channels of a 6-digit literal have two equal digits (after case
folding). -/
def doubled (c1 c2 c3 c4 c5 c6 : Nat) : Prop :=
  foldHex c1 = foldHex c2 ∧ foldHex c3 = foldHex c4 ∧ foldHex c5 = foldHex c6

instance (c1 c2 c3 c4 c5 c6 : Nat) : Decidable (doubled c1 c2 c3 c4 c5 c6) := by
  unfold doubled; infer_instance

/-- The 24-bit value of six hex digit bytes, as a key of `shortColorName`. -/
def colorKey (c1 c2 c3 c4 c5 c6 : Nat) : Int :=
  ((rgb24 (hexVal c1) (hexVal c2) (hexVal c3) (hexVal c4) (hexVal c5) (hexVal c6) : Nat) : Int)

/-- ASCII lower-casing of one byte, the byte-wise step of `strings.ToLower`. -/
def asciiLower (c : Nat) : Nat := if 65 ≤ c ∧ c ≤ 90 then c + (97 - 65) else c

/-- Every byte is below `0x80`. -/
def isASCII (s : List Nat) : Bool := s.all (fun c => decide (c < 0x80))

/-- The two hex digits of every byte of a 24-bit number are equal. -/
def doubledKey (n : Nat) : Prop :=
  n / 1048576 % 16 = n / 65536 % 16 ∧ n / 4096 % 16 = n / 256 % 16 ∧ n / 16 % 16 = n % 16

instance (n : Nat) : Decidable (doubledKey n) := by
  unfold doubledKey; infer_instance

/-- The channels (red, green, blue, alpha) of a 24-bit color value at full opacity. -/
def keyChannels (n : Nat) : Nat × Nat × Nat × Nat :=
  (n / 65536 % 256, n / 256 % 256, n % 256, 255)

/-- The RGBA value of a hash literal: `#` followed by 3, 4, 6 or 8 hex digits, where a 3- or
4-digit form doubles each digit and a missing alpha is full opacity (255). -/
def decodeHash (text : List Nat) : Option (Nat × Nat × Nat × Nat) :=
  match text with
  | [c0, r, g, b] =>
    if c0 = 35 ∧ isHexDigit r ∧ isHexDigit g ∧ isHexDigit b then
      some (16 * hexVal r + hexVal r, 16 * hexVal g + hexVal g, 16 * hexVal b + hexVal b, 255)
    else none
  | [c0, r, g, b, a] =>
    if c0 = 35 ∧ isHexDigit r ∧ isHexDigit g ∧ isHexDigit b ∧ isHexDigit a then
      some (16 * hexVal r + hexVal r, 16 * hexVal g + hexVal g, 16 * hexVal b + hexVal b,
        16 * hexVal a + hexVal a)
    else none
  | [c0, r1, r2, g1, g2, b1, b2] =>
    if c0 = 35 ∧ isHexDigit r1 ∧ isHexDigit r2 ∧ isHexDigit g1 ∧ isHexDigit g2 ∧
        isHexDigit b1 ∧ isHexDigit b2 then
      some (16 * hexVal r1 + hexVal r2, 16 * hexVal g1 + hexVal g2, 16 * hexVal b1 + hexVal b2,
        255)
    else none
  | [c0, r1, r2, g1, g2, b1, b2, a1, a2] =>
    if c0 = 35 ∧ isHexDigit r1 ∧ isHexDigit r2 ∧ isHexDigit g1 ∧ isHexDigit g2 ∧
        isHexDigit b1 ∧ isHexDigit b2 ∧ isHexDigit a1 ∧ isHexDigit a2 then
      some (16 * hexVal r1 + hexVal r2, 16 * hexVal g1 + hexVal g2, 16 * hexVal b1 + hexVal b2,
        16 * hexVal a1 + hexVal a2)
    else none
  | _ => none

/-- The RGBA value of a color name of `shortColorName`: its key, at full opacity. -/
def decodeName (name : List Nat) : Option (Nat × Nat × Nat × Nat) :=
  (shortColorName.find? (fun p => p.2 == name)).map (fun p => keyChannels p.1.toNat)

/-- The RGBA value a color token denotes. -/
def decodeColor (t : Token) : Option (Nat × Nat × Nat × Nat) :=
  match t.Kind with
  | T.THash | T.THashID => decodeHash t.Text
  | T.TIdent => decodeName t.Text
  | T.TOther _ => none

/-- The text is `#` followed by 3, 4, 6 or 8 hex digits. -/
def isHashLiteral (text : List Nat) : Prop :=
  ∃ ds : List Nat, text = 35 :: ds ∧
    (ds.length = 3 ∨ ds.length = 4 ∨ ds.length = 6 ∨ ds.length = 8) ∧ ∀ c ∈ ds, isHexDigit c

/-! ## Declarations (`css_ast`) and the declaration scanner -/

/-- Modelled from the spec: the property identifiers of `css_ast.D`.  The constructors are
the properties the source names (the keys of `cssPrefixTable` and the color properties of
`processDeclarations`); every other property is represented by `DOther` carrying its
numeric code. -/
inductive D where
  | DAppearance
  | DBackdropFilter
  | DBackgroundClip
  | DBackgroundColor
  | DBorderBlockEndColor
  | DBorderBlockStartColor
  | DBorderBottomColor
  | DBorderColor
  | DBorderInlineEndColor
  | DBorderInlineStartColor
  | DBorderLeftColor
  | DBorderRightColor
  | DBorderTopColor
  | DBoxDecorationBreak
  | DCaretColor
  | DClipPath
  | DColor
  | DColumnRuleColor
  | DFloodColor
  | DFontKerning
  | DHyphens
  | DInitialLetter
  | DLightingColor
  | DMaskImage
  | DMaskOrigin
  | DMaskPosition
  | DMaskRepeat
  | DMaskSize
  | DOutlineColor
  | DPosition
  | DPrintColorAdjust
  | DStopColor
  | DTabSize
  | DTextDecorationColor
  | DTextDecorationLine
  | DTextDecorationSkip
  | DTextEmphasisColor
  | DTextEmphasisPosition
  | DTextEmphasisStyle
  | DTextOrientation
  | DTextSizeAdjust
  | DUserSelect
  | DOther (code : Nat)
  deriving DecidableEq

/-- Modelled from the spec: the declaration `css_ast.RDeclaration`, a property identifier
and its value tokens. -/
structure RDeclaration where
  Key : D
  Value : List Token
  deriving DecidableEq

/-- Modelled from the spec: a rule `css_ast.R`, either a declaration or a rule of another
kind, represented by `ROther` carrying a numeric code. -/
inductive R where
  | RDeclaration (decl : RDeclaration)
  | ROther (code : Nat)
  deriving DecidableEq

/-- Body of the loop of `processDeclarations`, for one rule; `MangleSyntax` is the option
`p.options.MangleSyntax`.  The result is the rule after the in-place update. -/
def processRule (lowerCase : Nat → Nat) (MangleSyntax : Bool) (rule : R) : Option R :=
  match rule with
  | R.RDeclaration decl =>
    match decl.Key with
    | D.DBackgroundColor
    | D.DBorderBlockEndColor
    | D.DBorderBlockStartColor
    | D.DBorderBottomColor
    | D.DBorderColor
    | D.DBorderInlineEndColor
    | D.DBorderInlineStartColor
    | D.DBorderLeftColor
    | D.DBorderRightColor
    | D.DBorderTopColor
    | D.DCaretColor
    | D.DColor
    | D.DColumnRuleColor
    | D.DFloodColor
    | D.DLightingColor
    | D.DOutlineColor
    | D.DStopColor
    | D.DTextDecorationColor
    | D.DTextEmphasisColor =>
      if MangleSyntax && decl.Value.length == 1 then do
        let token ← decl.Value[0]?
        let mangled ← mangleColor lowerCase token
        some (R.RDeclaration { decl with Value := decl.Value.set 0 mangled })
      else some rule
    | _ => some rule
  | R.ROther _ => some rule

/-- Go `processDeclarations`: the rules after the pass, `none` if an index expression was
out of range. -/
def processDeclarations (lowerCase : Nat → Nat) (MangleSyntax : Bool) :
    List R → Option (List R)
  | [] => some []
  | rule :: rules => do
    let rule1 ← processRule lowerCase MangleSyntax rule
    let rules1 ← processDeclarations lowerCase MangleSyntax rules
    some (rule1 :: rules1)

/-- The color properties whose single-token value `processDeclarations` canonicalises. -/
def colorProperties : List D := [
  D.DBackgroundColor,
  D.DBorderBlockEndColor,
  D.DBorderBlockStartColor,
  D.DBorderBottomColor,
  D.DBorderColor,
  D.DBorderInlineEndColor,
  D.DBorderInlineStartColor,
  D.DBorderLeftColor,
  D.DBorderRightColor,
  D.DBorderTopColor,
  D.DCaretColor,
  D.DColor,
  D.DColumnRuleColor,
  D.DFloodColor,
  D.DLightingColor,
  D.DOutlineColor,
  D.DStopColor,
  D.DTextDecorationColor,
  D.DTextEmphasisColor]

/-- The rule is a declaration of a color property whose value is exactly one token. -/
def eligible (rule : R) : Prop :=
  ∃ decl, rule = R.RDeclaration decl ∧ decl.Key ∈ colorProperties ∧ decl.Value.length = 1

/-- What the pass may do to one rule: `after` is the rule `before` after the pass. -/
def ruleOutcome (lowerCase : Nat → Nat) (MangleSyntax : Bool) (before after : R) : Prop :=
  (¬ eligible before → after = before) ∧
  (MangleSyntax = false → after = before) ∧
  (MangleSyntax = true → ∀ key token, before = R.RDeclaration ⟨key, [token]⟩ →
    key ∈ colorProperties →
    ∃ mangled, mangleColor lowerCase token = some mangled ∧
      after = R.RDeclaration ⟨key, [mangled]⟩)

/-- What C20 says of one hash token: the result on the lower-cased text is the lower-cased
result, and a result that differs from the input is entirely lower-case. -/
def lowerCommutes (lc : Nat → Nat) (k : T) (text : List Nat) : Prop :=
  ∃ u, mangleColor lc ⟨k, text⟩ = some u ∧
    mangleColor lc ⟨k, text.map asciiLower⟩ = some ⟨u.Kind, u.Text.map asciiLower⟩ ∧
    (u ≠ ⟨k, text⟩ → u.Text.map asciiLower = u.Text)

end CssDecls

/-!
# CSS compatibility tables (`internal/compat/css_table.go`)

A Go map is represented by an association list in source order, a `range` loop over a map
by a left fold over that list; the statements about the resolvers include that their
result does not depend on the order in which the constraints are visited.  The bit sets
`CSSFeature` and `CSSPrefix` (Go `uint8`) are natural numbers below 256.
-/

namespace Compat

open CssDecls (D)

/-- Modelled from the spec: the closed enumeration `Engine`.  The browser engines are the
seven the tables of the source name; `ES` and `Node` stand for the targets that are not
browsers (a language level, a server-side runtime). -/
inductive Engine where
  | Chrome
  | Edge
  | Firefox
  | IE
  | IOS
  | Opera
  | Safari
  | ES
  | Node
  deriving DecidableEq

/-- Modelled from the spec: `Engine.IsBrowser`, the tag that tells browser engines from the
other targets. -/
def Engine.IsBrowser : Engine → Bool
  | Engine.Chrome | Engine.Edge | Engine.Firefox | Engine.IE | Engine.IOS | Engine.Opera
  | Engine.Safari => true
  | Engine.ES | Engine.Node => false

/-- Modelled from the spec: the version type `v`, an ordered triple (major, minor, patch)
of non-negative integers whose zero value means "unspecified". -/
structure v where
  major : Nat
  minor : Nat
  patch : Nat
  deriving DecidableEq

/-- Modelled from the spec: `versionRange`, the versions from `start` (inclusive) onward. -/
structure versionRange where
  start : v
  deriving DecidableEq

/-- Modelled from the spec: `compareVersions`, the lexicographic comparison of two versions
on (major, minor, patch): negative, zero or positive as the first is less than, equal to
or greater than the second. -/
def compareVersions (a b : v) : Int :=
  if a.major ≠ b.major then (a.major : Int) - (b.major : Int)
  else if a.minor ≠ b.minor then (a.minor : Int) - (b.minor : Int)
  else (a.patch : Int) - (b.patch : Int)

/-- Modelled from the spec: `isVersionSupported`; a version is in a range if it is at
least the start of the range and below the start of the next range, or unbounded above if
the range is the last one. -/
def isVersionSupported : List versionRange → v → Bool
  | [], _ => false
  | [r], version => decide (compareVersions r.start version ≤ 0)
  | r :: next :: rest, version =>
    (decide (compareVersions r.start version ≤ 0) &&
      decide (compareVersions next.start version > 0)) ||
    isVersionSupported (next :: rest) version

/-! ## Feature flags -/

def HexRGBA : Nat := 1 <<< 0
def InlineStyle : Nat := 1 <<< 1
def InsetProperty : Nat := 1 <<< 2
def IsPseudoClass : Nat := 1 <<< 3
def Modern_RGB_HSL : Nat := 1 <<< 4
def Nesting : Nat := 1 <<< 5
def RebeccaPurple : Nat := 1 <<< 6

/-- Go `CSSFeature.Has`. -/
def Has (features feature : Nat) : Bool :=
  (features &&& feature) != 0

/-- Go `CSSFeature.ApplyOverrides`; `^mask` on a `uint8` flips the eight bits. -/
def ApplyOverrides (features overrides mask : Nat) : Nat :=
  (features &&& (mask ^^^ 0xFF)) ||| (overrides &&& mask)

/-- The map `cssTable`, as an association list in source order. -/
def cssTable : List (Nat × List (Engine × List versionRange)) := [
  (HexRGBA, [
    (Engine.Chrome, [⟨⟨62, 0, 0⟩⟩]),
    (Engine.Edge, [⟨⟨79, 0, 0⟩⟩]),
    (Engine.Firefox, [⟨⟨49, 0, 0⟩⟩]),
    (Engine.IOS, [⟨⟨9, 3, 0⟩⟩]),
    (Engine.Opera, [⟨⟨49, 0, 0⟩⟩]),
    (Engine.Safari, [⟨⟨9, 1, 0⟩⟩])]),
  (InsetProperty, [
    (Engine.Chrome, [⟨⟨87, 0, 0⟩⟩]),
    (Engine.Edge, [⟨⟨87, 0, 0⟩⟩]),
    (Engine.Firefox, [⟨⟨66, 0, 0⟩⟩]),
    (Engine.IOS, [⟨⟨14, 5, 0⟩⟩]),
    (Engine.Opera, [⟨⟨73, 0, 0⟩⟩]),
    (Engine.Safari, [⟨⟨14, 1, 0⟩⟩])]),
  (IsPseudoClass, [
    (Engine.Chrome, [⟨⟨88, 0, 0⟩⟩]),
    (Engine.Edge, [⟨⟨88, 0, 0⟩⟩]),
    (Engine.Firefox, [⟨⟨78, 0, 0⟩⟩]),
    (Engine.IOS, [⟨⟨14, 0, 0⟩⟩]),
    (Engine.Opera, [⟨⟨75, 0, 0⟩⟩]),
    (Engine.Safari, [⟨⟨14, 0, 0⟩⟩])]),
  (Modern_RGB_HSL, [
    (Engine.Chrome, [⟨⟨66, 0, 0⟩⟩]),
    (Engine.Edge, [⟨⟨79, 0, 0⟩⟩]),
    (Engine.Firefox, [⟨⟨52, 0, 0⟩⟩]),
    (Engine.IOS, [⟨⟨12, 2, 0⟩⟩]),
    (Engine.Opera, [⟨⟨53, 0, 0⟩⟩]),
    (Engine.Safari, [⟨⟨12, 1, 0⟩⟩])]),
  (Nesting, [
    (Engine.Chrome, [⟨⟨112, 0, 0⟩⟩])]),
  (RebeccaPurple, [
    (Engine.Chrome, [⟨⟨38, 0, 0⟩⟩]),
    (Engine.Edge, [⟨⟨12, 0, 0⟩⟩]),
    (Engine.Firefox, [⟨⟨33, 0, 0⟩⟩]),
    (Engine.IE, [⟨⟨11, 0, 0⟩⟩]),
    (Engine.IOS, [⟨⟨8, 0, 0⟩⟩]),
    (Engine.Opera, [⟨⟨25, 0, 0⟩⟩]),
    (Engine.Safari, [⟨⟨9, 0, 0⟩⟩])])]

/-- Body of the inner loop of `UnsupportedCSSFeatures`, for one constraint. -/
def unsupportedForConstraint (feature : Nat) (engines : List (Engine × List versionRange))
    (unsupported : Nat) (constraint : Engine × v) : Nat :=
  if !constraint.1.IsBrowser then
    -- Specifying "--target=es2020" shouldn't affect CSS
    unsupported
  else
    match engines.lookup constraint.1 with
    | some versionRanges =>
      if !isVersionSupported versionRanges constraint.2 then unsupported ||| feature
      else unsupported
    | none => unsupported ||| feature

/-- Body of the outer loop of `UnsupportedCSSFeatures`, for one entry of `cssTable`. -/
def unsupportedForFeature (constraints : List (Engine × v)) (unsupported : Nat)
    (entry : Nat × List (Engine × List versionRange)) : Nat :=
  if entry.1 = InlineStyle then
    -- This is purely user-specified
    unsupported
  else constraints.foldl (unsupportedForConstraint entry.1 entry.2) unsupported

/-- Go `UnsupportedCSSFeatures`: all features that are not available in at least one
environment.  The constraint map is an association list with one entry per engine. -/
def UnsupportedCSSFeatures (constraints : List (Engine × v)) : Nat :=
  cssTable.foldl (unsupportedForFeature constraints) 0

/-! ## Vendor prefixes -/

def WebkitPrefix : Nat := 1 <<< 0
def MozPrefix : Nat := 1 <<< 1
def MsPrefix : Nat := 1 <<< 2
def OPrefix : Nat := 1 <<< 3
def NoPrefix : Nat := 0

/-- Go `prefixData`; the field `prefix` of the source is called `pfx` here. -/
structure prefixData where
  engine : Engine
  withoutPrefix : v := ⟨0, 0, 0⟩
  pfx : Nat
  deriving DecidableEq

/-- The map `cssPrefixTable`, as an association list in source order. -/
def cssPrefixTable : List (D × List prefixData) := [
  (D.DAppearance, [
    { engine := Engine.Chrome, pfx := WebkitPrefix, withoutPrefix := ⟨84, 0, 0⟩ },
    { engine := Engine.Edge, pfx := WebkitPrefix, withoutPrefix := ⟨84, 0, 0⟩ },
    { engine := Engine.Firefox, pfx := MozPrefix, withoutPrefix := ⟨80, 4, 0⟩ },
    { engine := Engine.IOS, pfx := WebkitPrefix, withoutPrefix := ⟨15, 4, 0⟩ },
    { engine := Engine.Opera, pfx := WebkitPrefix, withoutPrefix := ⟨73, 4, 0⟩ },
    { engine := Engine.Safari, pfx := WebkitPrefix, withoutPrefix := ⟨15, 4, 0⟩ }]),
  (D.DBackdropFilter, [
    { engine := Engine.IOS, pfx := WebkitPrefix },
    { engine := Engine.Safari, pfx := WebkitPrefix }]),
  (D.DBackgroundClip, [
    { engine := Engine.Chrome, pfx := WebkitPrefix },
    { engine := Engine.Edge, pfx := WebkitPrefix },
    { engine := Engine.IOS, pfx := WebkitPrefix, withoutPrefix := ⟨14, 0, 0⟩ },
    { engine := Engine.Opera, pfx := WebkitPrefix },
    { engine := Engine.Safari, pfx := WebkitPrefix, withoutPrefix := ⟨14, 0, 0⟩ }]),
  (D.DBoxDecorationBreak, [
    { engine := Engine.Chrome, pfx := WebkitPrefix },
    { engine := Engine.Edge, pfx := WebkitPrefix },
    { engine := Engine.IOS, pfx := WebkitPrefix },
    { engine := Engine.Opera, pfx := WebkitPrefix },
    { engine := Engine.Safari, pfx := WebkitPrefix }]),
  (D.DClipPath, [
    { engine := Engine.Chrome, pfx := WebkitPrefix, withoutPrefix := ⟨55, 0, 0⟩ },
    { engine := Engine.IOS, pfx := WebkitPrefix, withoutPrefix := ⟨13, 0, 0⟩ },
    { engine := Engine.Opera, pfx := WebkitPrefix, withoutPrefix := ⟨42, 0, 0⟩ },
    { engine := Engine.Safari, pfx := WebkitPrefix, withoutPrefix := ⟨13, 1, 0⟩ }]),
  (D.DFontKerning, [
    { engine := Engine.Chrome, pfx := WebkitPrefix, withoutPrefix := ⟨33, 0, 0⟩ },
    { engine := Engine.IOS, pfx := WebkitPrefix, withoutPrefix := ⟨12, 0, 0⟩ },
    { engine := Engine.Opera, pfx := WebkitPrefix, withoutPrefix := ⟨20, 0, 0⟩ },
    { engine := Engine.Safari, pfx := WebkitPrefix, withoutPrefix := ⟨9, 1, 0⟩ }]),
  (D.DHyphens, [
    { engine := Engine.Edge, pfx := MsPrefix, withoutPrefix := ⟨79, 0, 0⟩ },
    { engine := Engine.Firefox, pfx := MozPrefix, withoutPrefix := ⟨43, 0, 0⟩ },
    { engine := Engine.IE, pfx := MsPrefix },
    { engine := Engine.IOS, pfx := WebkitPrefix },
    { engine := Engine.Safari, pfx := WebkitPrefix }]),
  (D.DInitialLetter, [
    { engine := Engine.IOS, pfx := WebkitPrefix },
    { engine := Engine.Safari, pfx := WebkitPrefix }]),
  (D.DMaskImage, [
    { engine := Engine.Chrome, pfx := WebkitPrefix },
    { engine := Engine.Edge, pfx := WebkitPrefix },
    { engine := Engine.IOS, pfx := WebkitPrefix, withoutPrefix := ⟨15, 4, 0⟩ },
    { engine := Engine.Opera, pfx := WebkitPrefix },
    { engine := Engine.Safari, pfx := WebkitPrefix, withoutPrefix := ⟨15, 4, 0⟩ }]),
  (D.DMaskOrigin, [
    { engine := Engine.Chrome, pfx := WebkitPrefix },
    { engine := Engine.Edge, pfx := WebkitPrefix },
    { engine := Engine.IOS, pfx := WebkitPrefix, withoutPrefix := ⟨15, 4, 0⟩ },
    { engine := Engine.Opera, pfx := WebkitPrefix },
    { engine := Engine.Safari, pfx := WebkitPrefix, withoutPrefix := ⟨15, 4, 0⟩ }]),
  (D.DMaskPosition, [
    { engine := Engine.Chrome, pfx := WebkitPrefix },
    { engine := Engine.Edge, pfx := WebkitPrefix },
    { engine := Engine.IOS, pfx := WebkitPrefix, withoutPrefix := ⟨15, 4, 0⟩ },
    { engine := Engine.Opera, pfx := WebkitPrefix },
    { engine := Engine.Safari, pfx := WebkitPrefix, withoutPrefix := ⟨15, 4, 0⟩ }]),
  (D.DMaskRepeat, [
    { engine := Engine.Chrome, pfx := WebkitPrefix },
    { engine := Engine.Edge, pfx := WebkitPrefix },
    { engine := Engine.IOS, pfx := WebkitPrefix, withoutPrefix := ⟨15, 4, 0⟩ },
    { engine := Engine.Opera, pfx := WebkitPrefix },
    { engine := Engine.Safari, pfx := WebkitPrefix, withoutPrefix := ⟨15, 4, 0⟩ }]),
  (D.DMaskSize, [
    { engine := Engine.Chrome, pfx := WebkitPrefix },
    { engine := Engine.Edge, pfx := WebkitPrefix },
    { engine := Engine.IOS, pfx := WebkitPrefix, withoutPrefix := ⟨15, 4, 0⟩ },
    { engine := Engine.Opera, pfx := WebkitPrefix },
    { engine := Engine.Safari, pfx := WebkitPrefix, withoutPrefix := ⟨15, 4, 0⟩ }]),
  (D.DPosition, [
    { engine := Engine.IOS, pfx := WebkitPrefix, withoutPrefix := ⟨13, 0, 0⟩ },
    { engine := Engine.Safari, pfx := WebkitPrefix, withoutPrefix := ⟨13, 0, 0⟩ }]),
  (D.DPrintColorAdjust, [
    { engine := Engine.Chrome, pfx := WebkitPrefix },
    { engine := Engine.Edge, pfx := WebkitPrefix },
    { engine := Engine.Opera, pfx := WebkitPrefix },
    { engine := Engine.Safari, pfx := WebkitPrefix, withoutPrefix := ⟨15, 4, 0⟩ }]),
  (D.DTabSize, [
    { engine := Engine.Firefox, pfx := MozPrefix, withoutPrefix := ⟨91, 0, 0⟩ },
    { engine := Engine.Opera, pfx := OPrefix, withoutPrefix := ⟨15, 0, 0⟩ }]),
  (D.DTextDecorationColor, [
    { engine := Engine.Firefox, pfx := MozPrefix, withoutPrefix := ⟨36, 0, 0⟩ },
    { engine := Engine.IOS, pfx := WebkitPrefix, withoutPrefix := ⟨12, 2, 0⟩ },
    { engine := Engine.Safari, pfx := WebkitPrefix, withoutPrefix := ⟨12, 1, 0⟩ }]),
  (D.DTextDecorationLine, [
    { engine := Engine.Firefox, pfx := MozPrefix, withoutPrefix := ⟨36, 0, 0⟩ },
    { engine := Engine.IOS, pfx := WebkitPrefix, withoutPrefix := ⟨12, 2, 0⟩ },
    { engine := Engine.Safari, pfx := WebkitPrefix, withoutPrefix := ⟨12, 1, 0⟩ }]),
  (D.DTextDecorationSkip, [
    { engine := Engine.IOS, pfx := WebkitPrefix, withoutPrefix := ⟨12, 2, 0⟩ },
    { engine := Engine.Safari, pfx := WebkitPrefix, withoutPrefix := ⟨12, 1, 0⟩ }]),
  (D.DTextEmphasisColor, [
    { engine := Engine.Chrome, pfx := WebkitPrefix, withoutPrefix := ⟨99, 0, 0⟩ },
    { engine := Engine.Edge, pfx := WebkitPrefix, withoutPrefix := ⟨99, 0, 0⟩ },
    { engine := Engine.Opera, pfx := WebkitPrefix, withoutPrefix := ⟨85, 0, 0⟩ }]),
  (D.DTextEmphasisPosition, [
    { engine := Engine.Chrome, pfx := WebkitPrefix, withoutPrefix := ⟨99, 0, 0⟩ },
    { engine := Engine.Edge, pfx := WebkitPrefix, withoutPrefix := ⟨99, 0, 0⟩ },
    { engine := Engine.Opera, pfx := WebkitPrefix, withoutPrefix := ⟨85, 0, 0⟩ }]),
  (D.DTextEmphasisStyle, [
    { engine := Engine.Chrome, pfx := WebkitPrefix, withoutPrefix := ⟨99, 0, 0⟩ },
    { engine := Engine.Edge, pfx := WebkitPrefix, withoutPrefix := ⟨99, 0, 0⟩ },
    { engine := Engine.Opera, pfx := WebkitPrefix, withoutPrefix := ⟨85, 0, 0⟩ }]),
  (D.DTextOrientation, [
    { engine := Engine.Safari, pfx := WebkitPrefix, withoutPrefix := ⟨14, 0, 0⟩ }]),
  (D.DTextSizeAdjust, [
    { engine := Engine.Edge, pfx := MsPrefix, withoutPrefix := ⟨79, 0, 0⟩ },
    { engine := Engine.IOS, pfx := WebkitPrefix }]),
  (D.DUserSelect, [
    { engine := Engine.Chrome, pfx := WebkitPrefix, withoutPrefix := ⟨54, 0, 0⟩ },
    { engine := Engine.Edge, pfx := MsPrefix, withoutPrefix := ⟨79, 0, 0⟩ },
    { engine := Engine.Firefox, pfx := MozPrefix, withoutPrefix := ⟨69, 0, 0⟩ },
    { engine := Engine.IE, pfx := MsPrefix },
    { engine := Engine.IOS, pfx := WebkitPrefix },
    { engine := Engine.Opera, pfx := WebkitPrefix, withoutPrefix := ⟨41, 0, 0⟩ },
    { engine := Engine.Safari, pfx := WebkitPrefix }])]

/-- Body of the innermost loop of `CSSPrefixData`, for one item of the table entry. -/
def prefixesForItem (constraint : Engine × v) (prefixes : Nat) (item : prefixData) : Nat :=
  if item.engine = constraint.1 ∧
      (item.withoutPrefix = ⟨0, 0, 0⟩ ∨ compareVersions item.withoutPrefix constraint.2 > 0) then
    prefixes ||| item.pfx
  else prefixes

/-- Body of the loop of `CSSPrefixData` over the constraints, for one constraint. -/
def prefixesForConstraint (items : List prefixData) (prefixes : Nat)
    (constraint : Engine × v) : Nat :=
  if !constraint.1.IsBrowser then
    -- Specifying "--target=es2020" shouldn't affect CSS
    prefixes
  else items.foldl (prefixesForItem constraint) prefixes

/-- Go map assignment `entries[key] = value` on an association list. -/
def mapSet (entries : List (D × Nat)) (key : D) (value : Nat) : List (D × Nat) :=
  match entries with
  | [] => [(key, value)]
  | (k, x) :: rest => if k = key then (key, value) :: rest else (k, x) :: mapSet rest key value

/-- Body of the outer loop of `CSSPrefixData`, for one entry of `cssPrefixTable`. -/
def prefixesForProperty (constraints : List (Engine × v)) (entries : List (D × Nat))
    (entry : D × List prefixData) : List (D × Nat) :=
  if constraints.foldl (prefixesForConstraint entry.2) NoPrefix ≠ NoPrefix then
    mapSet entries entry.1 (constraints.foldl (prefixesForConstraint entry.2) NoPrefix)
  else entries

/-- Go `CSSPrefixData`: the prefixes each property needs.  The result map is an association
list; the `nil` map is the empty list. -/
def CSSPrefixData (constraints : List (Engine × v)) : List (D × Nat) :=
  cssPrefixTable.foldl (prefixesForProperty constraints) []

/-! ## Vocabulary of the statements -/

/-- The lexicographic order on versions: `a` is strictly below `b`. -/
def versionLt (a b : v) : Prop :=
  a.major < b.major ∨ (a.major = b.major ∧
    (a.minor < b.minor ∨ (a.minor = b.minor ∧ a.patch < b.patch)))

instance (a b : v) : Decidable (versionLt a b) := by
  unfold versionLt; infer_instance

/-- The constraint lacks the feature whose engine map is `engines`: the engine is a browser
and either has no entry or has a version the ranges do not contain. -/
def lacksFeature (engines : List (Engine × List versionRange)) (constraint : Engine × v) :
    Bool :=
  constraint.1.IsBrowser &&
    (match engines.lookup constraint.1 with
      | some versionRanges => !isVersionSupported versionRanges constraint.2
      | none => true)

/-- The flag one entry of `cssTable` contributes for a constraint set. -/
def featureFlag (constraints : List (Engine × v))
    (entry : Nat × List (Engine × List versionRange)) : Nat :=
  if entry.1 = InlineStyle then 0
  else if constraints.any (lacksFeature entry.2) then entry.1 else 0

/-- Bitwise OR of a list of bit sets. -/
def orList (l : List Nat) : Nat := l.foldr (fun x acc => x ||| acc) 0

/-- The item asks for its prefix under the constraint: same engine, and the item has no
unprefixed version or the constraint's version is below it. -/
def needsPrefix (constraint : Engine × v) (item : prefixData) : Bool :=
  decide (item.engine = constraint.1) &&
    (decide (item.withoutPrefix = ⟨0, 0, 0⟩) || decide (versionLt constraint.2 item.withoutPrefix))

/-- The set `A(p)` of the prefixes a property with table entry `items` needs: the bitwise
OR of the prefix of every item that asks for it under a browser constraint. -/
def neededPrefixes (constraints : List (Engine × v)) (items : List prefixData) : Nat :=
  orList ((constraints.filter (fun constraint => constraint.1.IsBrowser)).map
    (fun constraint => orList ((items.filter (needsPrefix constraint)).map (fun item => item.pfx))))

/-- The entry of the result one entry of `cssPrefixTable` contributes, if any. -/
def prefixEntry (constraints : List (Engine × v)) (entry : D × List prefixData) :
    Option (D × Nat) :=
  if neededPrefixes constraints entry.2 = 0 then none
  else some (entry.1, neededPrefixes constraints entry.2)

/-- The prefix bits `CSSPrefixData` stores for a property, `NoPrefix` if it stores none. -/
def prefixBits (constraints : List (Engine × v)) (p : D) : Nat :=
  ((CSSPrefixData constraints).lookup p).getD NoPrefix

end Compat

namespace CssDecls

/-! ## Hex digits and keys -/

theorem toLowerHex_of_hex {c : Nat} (h : isHexDigit c) :
    toLowerHex c = (((foldHex c : Nat) : Int), true) := by
  unfold isHexDigit at h
  unfold toLowerHex foldHex
  split_ifs <;> first | rfl | omega

theorem toLowerHex_of_not_hex {c : Nat} (h : ¬ isHexDigit c) :
    toLowerHex c = (0, false) := by
  unfold isHexDigit at h
  unfold toLowerHex
  split_ifs <;> first | rfl | omega

theorem toLowerHex_snd (c : Nat) : (toLowerHex c).2 = decide (isHexDigit c) := by
  by_cases h : isHexDigit c
  · simp [toLowerHex_of_hex h, h]
  · simp [toLowerHex_of_not_hex h, h]

theorem foldHex_range {c : Nat} (h : isHexDigit c) :
    (48 ≤ foldHex c ∧ foldHex c ≤ 57) ∨ (97 ≤ foldHex c ∧ foldHex c ≤ 102) := by
  unfold isHexDigit at h
  unfold foldHex
  split_ifs <;> omega

theorem isHexDigit_foldHex {c : Nat} (h : isHexDigit c) : isHexDigit (foldHex c) := by
  have := foldHex_range h
  unfold isHexDigit; omega

theorem foldHex_foldHex {c : Nat} (h : isHexDigit c) : foldHex (foldHex c) = foldHex c := by
  have := foldHex_range h
  generalize foldHex c = d at *
  unfold foldHex; split_ifs <;> omega

theorem hex1_foldHex {c : Nat} (h : isHexDigit c) : hex1 (foldHex c : Nat) = (hexVal c : Nat) := by
  unfold isHexDigit at h
  unfold hex1 foldHex hexVal
  split_ifs <;> omega

theorem hexVal_lt {c : Nat} (h : isHexDigit c) : hexVal c < 16 := by
  unfold isHexDigit at h
  unfold hexVal
  split_ifs <;> omega

theorem hexVal_foldHex (c : Nat) : hexVal (foldHex c) = hexVal c := by
  unfold hexVal foldHex
  split_ifs <;> omega

theorem foldHex_eq_iff {c d : Nat} (hc : isHexDigit c) (hd : isHexDigit d) :
    foldHex c = foldHex d ↔ hexVal c = hexVal d := by
  unfold isHexDigit at hc hd
  unfold hexVal foldHex
  split_ifs <;> omega

theorem encodeRune_ascii {r : Nat} (h : r ≤ 0x7F) : encodeRune r = [r] := by
  simp [encodeRune, h]

theorem fmtC_foldHex {c : Nat} (h : isHexDigit c) : fmtC (foldHex c : Nat) = [foldHex c] := by
  have := foldHex_range h
  unfold fmtC
  rw [if_neg (by omega)]
  simp only [Int.toNat_ofNat]
  exact encodeRune_ascii (by omega)

theorem or_eq_add (i q y : Nat) (hy : y < 2 ^ i) : (2 ^ i * q) ||| y = 2 ^ i * q + y :=
  (Nat.mul_add_lt_is_or hy q).symm

theorem nat_hex6 {a b c d e f : Nat} (hb : b < 16) (hc : c < 16) (hd : d < 16)
    (he : e < 16) (hf : f < 16) :
    a <<< 20 ||| b <<< 16 ||| c <<< 12 ||| d <<< 8 ||| e <<< 4 ||| f = rgb24 a b c d e f := by
  simp only [Nat.shiftLeft_eq, rgb24]
  have e1 : a * 2 ^ 20 ||| b * 2 ^ 16 = 2 ^ 16 * (a * 16 + b) := by
    have := or_eq_add 20 a (b * 2 ^ 16) (by omega)
    rw [show a * 2 ^ 20 = 2 ^ 20 * a by ring, this]; ring
  have e2 : 2 ^ 16 * (a * 16 + b) ||| c * 2 ^ 12 = 2 ^ 12 * (a * 256 + b * 16 + c) := by
    have := or_eq_add 16 (a * 16 + b) (c * 2 ^ 12) (by omega)
    rw [this]; ring
  have e3 : 2 ^ 12 * (a * 256 + b * 16 + c) ||| d * 2 ^ 8
      = 2 ^ 8 * (a * 4096 + b * 256 + c * 16 + d) := by
    have := or_eq_add 12 (a * 256 + b * 16 + c) (d * 2 ^ 8) (by omega)
    rw [this]; ring
  have e4 : 2 ^ 8 * (a * 4096 + b * 256 + c * 16 + d) ||| e * 2 ^ 4
      = 2 ^ 4 * (a * 65536 + b * 4096 + c * 256 + d * 16 + e) := by
    have := or_eq_add 8 (a * 4096 + b * 256 + c * 16 + d) (e * 2 ^ 4) (by omega)
    rw [this]; ring
  have e5 : 2 ^ 4 * (a * 65536 + b * 4096 + c * 256 + d * 16 + e) ||| f
      = 2 ^ 4 * (a * 65536 + b * 4096 + c * 256 + d * 16 + e) + f :=
    or_eq_add 4 _ f (by omega)
  rw [e1, e2, e3, e4, e5]; ring

theorem hex6_foldHex {c1 c2 c3 c4 c5 c6 : Nat} (h1 : isHexDigit c1) (h2 : isHexDigit c2)
    (h3 : isHexDigit c3) (h4 : isHexDigit c4) (h5 : isHexDigit c5) (h6 : isHexDigit c6) :
    hex6 (foldHex c1 : Nat) (foldHex c2 : Nat) (foldHex c3 : Nat) (foldHex c4 : Nat)
      (foldHex c5 : Nat) (foldHex c6 : Nat)
      = ((rgb24 (hexVal c1) (hexVal c2) (hexVal c3) (hexVal c4) (hexVal c5) (hexVal c6) : Nat) : Int) := by
  unfold hex6
  rw [hex1_foldHex h1, hex1_foldHex h2, hex1_foldHex h3, hex1_foldHex h4, hex1_foldHex h5,
    hex1_foldHex h6]
  rw [← nat_hex6 (hexVal_lt h2) (hexVal_lt h3) (hexVal_lt h4) (hexVal_lt h5)
    (hexVal_lt h6)]
  have s : ∀ (m n : Nat), ((m : Int) <<< ((n : Nat) : Int)) = ((m <<< n : Nat) : Int) :=
    Int.shiftLeft_coe_nat
  have l : ∀ (m n : Nat), Int.lor (m : Int) (n : Int) = ((m ||| n : Nat) : Int) := fun _ _ => rfl
  have := s (hexVal c1) 20
  have := s (hexVal c2) 16
  have := s (hexVal c3) 12
  have := s (hexVal c4) 8
  have := s (hexVal c5) 4
  simp only [Nat.cast_ofNat] at *
  simp only [*, l]



theorem mangleColor_other_len (lc : Nat → Nat) {k : T} (hk : isHashKind k) (text : List Nat)
    (h4 : text.length ≠ 4) (h5 : text.length ≠ 5) (h7 : text.length ≠ 7)
    (h9 : text.length ≠ 9) : mangleColor lc ⟨k, text⟩ = some ⟨k, text⟩ := by
  rcases hk with rfl | rfl <;> simp [mangleColor, h4, h5, h7, h9]

theorem mangleColor_len4 (lc : Nat → Nat) {k : T} (hk : isHashKind k) (c0 c1 c2 c3 : Nat) :
    mangleColor lc ⟨k, [c0, c1, c2, c3]⟩ = some (
      if isHexDigit c1 ∧ isHexDigit c2 ∧ isHexDigit c3 then
        match shortColorName.lookup (colorKey c1 c1 c2 c2 c3 c3) with
        | some name => ⟨T.TIdent, name⟩
        | none => ⟨k, [c0, c1, c2, c3]⟩
      else ⟨k, [c0, c1, c2, c3]⟩) := by
  by_cases h : isHexDigit c1 ∧ isHexDigit c2 ∧ isHexDigit c3
  · obtain ⟨h1, h2, h3⟩ := h
    have hkey := hex6_foldHex h1 h1 h2 h2 h3 h3
    rcases hk with rfl | rfl <;>
    · simp only [mangleColor, List.length_cons, List.length_nil]
      simp [toLowerHex_of_hex, h1, h2, h3, hex3, hkey, colorKey, -List.lookup_eq_none_iff]
      cases List.lookup _ shortColorName <;> rfl
  · rcases hk with rfl | rfl <;>
    · simp only [mangleColor, List.length_cons, List.length_nil]
      simp [toLowerHex_snd, h]
      intro a b c; exact absurd ⟨a, b, c⟩ h



theorem mangleColor_len5 (lc : Nat → Nat) {k : T} (hk : isHashKind k) (c0 c1 c2 c3 c4 : Nat) :
    mangleColor lc ⟨k, [c0, c1, c2, c3, c4]⟩ = some (
      if (isHexDigit c1 ∧ isHexDigit c2 ∧ isHexDigit c3 ∧ isHexDigit c4) ∧ foldHex c4 = 102 then
        match shortColorName.lookup (colorKey c1 c1 c2 c2 c3 c3) with
        | some name => ⟨T.TIdent, name⟩
        | none => ⟨k, [35, foldHex c1, foldHex c2, foldHex c3]⟩
      else ⟨k, [c0, c1, c2, c3, c4]⟩) := by
  by_cases h : isHexDigit c1 ∧ isHexDigit c2 ∧ isHexDigit c3 ∧ isHexDigit c4
  · obtain ⟨h1, h2, h3, h4⟩ := h
    have hkey := hex6_foldHex h1 h1 h2 h2 h3 h3
    rcases hk with rfl | rfl <;>
    · simp only [mangleColor, List.length_cons, List.length_nil]
      simp [toLowerHex_of_hex, h1, h2, h3, h4, hex3, hkey, colorKey, fmtC_foldHex,
        -List.lookup_eq_none_iff]
      by_cases ha : foldHex c4 = 102
      · have ha' : ((foldHex c4 : Nat) : Int) = 102 := by exact_mod_cast ha
        simp [ha, ha', -List.lookup_eq_none_iff]
        cases List.lookup _ shortColorName <;> rfl
      · have ha' : ¬ ((foldHex c4 : Nat) : Int) = 102 := by exact_mod_cast ha
        simp [ha, ha']
  · have hf : ((toLowerHex c1).2 && (toLowerHex c2).2 && (toLowerHex c3).2 &&
        (toLowerHex c4).2) = false := by
      simp only [toLowerHex_snd, Bool.and_eq_false_iff, decide_eq_false_iff_not]; tauto
    rcases hk with rfl | rfl <;>
    · simp only [mangleColor, List.length_cons, List.length_nil]
      simp [h]
      intro a1 a2 a3 a4; simp [a1, a2, a3, a4] at hf

theorem mangleColor_len7 (lc : Nat → Nat) {k : T} (hk : isHashKind k)
    (c0 c1 c2 c3 c4 c5 c6 : Nat) :
    mangleColor lc ⟨k, [c0, c1, c2, c3, c4, c5, c6]⟩ = some (
      if isHexDigit c1 ∧ isHexDigit c2 ∧ isHexDigit c3 ∧ isHexDigit c4 ∧ isHexDigit c5 ∧
          isHexDigit c6 then
        match shortColorName.lookup (colorKey c1 c2 c3 c4 c5 c6) with
        | some name => ⟨T.TIdent, name⟩
        | none =>
          if doubled c1 c2 c3 c4 c5 c6 then ⟨k, [35, foldHex c1, foldHex c3, foldHex c5]⟩
          else ⟨k, [c0, c1, c2, c3, c4, c5, c6]⟩
      else ⟨k, [c0, c1, c2, c3, c4, c5, c6]⟩) := by
  by_cases h : isHexDigit c1 ∧ isHexDigit c2 ∧ isHexDigit c3 ∧ isHexDigit c4 ∧ isHexDigit c5 ∧
      isHexDigit c6
  · obtain ⟨h1, h2, h3, h4, h5, h6⟩ := h
    have hkey := hex6_foldHex h1 h2 h3 h4 h5 h6
    rcases hk with rfl | rfl <;>
    · simp only [mangleColor, List.length_cons, List.length_nil]
      simp [toLowerHex_of_hex, h1, h2, h3, h4, h5, h6, hkey, colorKey, fmtC_foldHex, doubled,
        -List.lookup_eq_none_iff]
      cases List.lookup _ shortColorName
      · by_cases hd : foldHex c1 = foldHex c2 ∧ foldHex c3 = foldHex c4 ∧ foldHex c5 = foldHex c6
        · simp [hd]
        · simp [hd]; tauto
      · rfl
  · have hf : ((toLowerHex c1).2 && (toLowerHex c2).2 && (toLowerHex c3).2 &&
        (toLowerHex c4).2 && (toLowerHex c5).2 && (toLowerHex c6).2) = false := by
      simp only [toLowerHex_snd, Bool.and_eq_false_iff, decide_eq_false_iff_not]; tauto
    rcases hk with rfl | rfl <;>
    · simp only [mangleColor, List.length_cons, List.length_nil]
      simp [h]
      intro a1 a2 a3 a4 a5 a6; simp [a1, a2, a3, a4, a5, a6] at hf

theorem mangleColor_len9 (lc : Nat → Nat) {k : T} (hk : isHashKind k)
    (c0 c1 c2 c3 c4 c5 c6 c7 c8 : Nat) :
    mangleColor lc ⟨k, [c0, c1, c2, c3, c4, c5, c6, c7, c8]⟩ = some (
      if (isHexDigit c1 ∧ isHexDigit c2 ∧ isHexDigit c3 ∧ isHexDigit c4 ∧ isHexDigit c5 ∧
          isHexDigit c6 ∧ isHexDigit c7 ∧ isHexDigit c8) ∧ foldHex c7 = foldHex c8 then
        if foldHex c7 = 102 then
          match shortColorName.lookup (colorKey c1 c2 c3 c4 c5 c6) with
          | some name => ⟨T.TIdent, name⟩
          | none =>
            if doubled c1 c2 c3 c4 c5 c6 then ⟨k, [35, foldHex c1, foldHex c3, foldHex c5]⟩
            else ⟨k, [35, foldHex c1, foldHex c2, foldHex c3, foldHex c4, foldHex c5,
              foldHex c6]⟩
        else if doubled c1 c2 c3 c4 c5 c6 then
          ⟨k, [35, foldHex c1, foldHex c3, foldHex c5, foldHex c7]⟩
        else ⟨k, [c0, c1, c2, c3, c4, c5, c6, c7, c8]⟩
      else ⟨k, [c0, c1, c2, c3, c4, c5, c6, c7, c8]⟩) := by
  by_cases h : isHexDigit c1 ∧ isHexDigit c2 ∧ isHexDigit c3 ∧ isHexDigit c4 ∧ isHexDigit c5 ∧
      isHexDigit c6 ∧ isHexDigit c7 ∧ isHexDigit c8
  · obtain ⟨h1, h2, h3, h4, h5, h6, h7, h8⟩ := h
    have hkey := hex6_foldHex h1 h2 h3 h4 h5 h6
    rcases hk with rfl | rfl <;>
    · simp only [mangleColor, List.length_cons, List.length_nil]
      simp [toLowerHex_of_hex, h1, h2, h3, h4, h5, h6, h7, h8, hkey, colorKey, fmtC_foldHex,
        doubled, -List.lookup_eq_none_iff]
      have hcast : (((foldHex c7 : Nat) : Int) = 102) ↔ foldHex c7 = 102 := by norm_cast
      simp only [hcast, and_assoc]
      cases List.lookup _ shortColorName <;> split_ifs <;> rfl
  · have hf : ((toLowerHex c1).2 && (toLowerHex c2).2 && (toLowerHex c3).2 &&
        (toLowerHex c4).2 && (toLowerHex c5).2 && (toLowerHex c6).2 && (toLowerHex c7).2 &&
        (toLowerHex c8).2) = false := by
      simp only [toLowerHex_snd, Bool.and_eq_false_iff, decide_eq_false_iff_not]; tauto
    rcases hk with rfl | rfl <;>
    · simp only [mangleColor, List.length_cons, List.length_nil]
      simp [h]
      intro a1 a2 a3 a4 a5 a6 a7 a8; simp [a1, a2, a3, a4, a5, a6, a7, a8] at hf

/-! ## Tables, fixed points and decoding -/

theorem foldHex_eq_f {c : Nat} : foldHex c = 102 ↔ (c = 102 ∨ c = 70) := by
  unfold foldHex; split_ifs <;> omega

theorem foldHex_eq_f_iff_val {c : Nat} (h : isHexDigit c) : foldHex c = 102 ↔ hexVal c = 15 := by
  unfold isHexDigit at h
  unfold foldHex hexVal; split_ifs <;> omega

theorem colorKey_doubled {c1 c2 c3 c4 c5 c6 : Nat} (h1 : isHexDigit c1) (h2 : isHexDigit c2)
    (h3 : isHexDigit c3) (h4 : isHexDigit c4) (h5 : isHexDigit c5) (h6 : isHexDigit c6)
    (hd : doubled c1 c2 c3 c4 c5 c6) :
    colorKey (foldHex c1) (foldHex c1) (foldHex c3) (foldHex c3) (foldHex c5) (foldHex c5)
      = colorKey c1 c2 c3 c4 c5 c6 := by
  obtain ⟨d1, d2, d3⟩ := hd
  rw [foldHex_eq_iff h1 h2] at d1
  rw [foldHex_eq_iff h3 h4] at d2
  rw [foldHex_eq_iff h5 h6] at d3
  simp only [colorKey, hexVal_foldHex, d1, d2, d3]

theorem mem_of_lookup {α β : Type} [BEq α] [LawfulBEq α] {k : α} {v : β} :
    ∀ {l : List (α × β)}, l.lookup k = some v → (k, v) ∈ l
  | [], h => by simp at h
  | (a, b) :: l, h => by
    by_cases hk : k = a
    · subst hk
      simp [List.lookup] at h
      simp [h]
    · have hb : (k == a) = false := by simpa using hk
      simp only [List.lookup, hb] at h
      exact List.mem_cons_of_mem _ (mem_of_lookup h)

theorem ToLower_of_ascii (lc : Nat → Nat) {s : List Nat} (h : isASCII s = true) :
    ToLower lc s = s.map asciiLower := by
  unfold isASCII at h
  unfold ToLower
  rw [if_pos h]; rfl

theorem or_ge_128 {a x : Nat} (ha : a.testBit 7 = true) : 128 ≤ a ||| x := by
  have : (a ||| x).testBit 7 = true := by simp [ha]
  exact Nat.testBit_implies_ge this

theorem encodeRune_length_one {r : Nat} (h : isASCII (encodeRune r) = true) :
    (encodeRune r).length = 1 := by
  unfold encodeRune at *
  unfold isASCII at h
  split_ifs at h ⊢
  · rfl
  · have := @or_ge_128 0xC0 (r >>> 6) (by decide)
    simp at h; omega
  · simp at h
  · have := @or_ge_128 0xE0 (r >>> 12) (by decide)
    simp at h; omega
  · have := @or_ge_128 0xF0 (r >>> 18) (by decide)
    simp at h; omega

theorem rangeRunes_length_le : ∀ (s : List Nat) (skip : Nat), (rangeRunes s skip).length ≤ s.length
  | [], _ => by simp [rangeRunes]
  | _ :: rest, skip + 1 => by
    simp only [rangeRunes, List.length_cons]
    exact Nat.le_succ_of_le (rangeRunes_length_le rest skip)
  | c :: rest, 0 => by
    simp only [rangeRunes, List.length_cons]
    exact Nat.succ_le_succ (rangeRunes_length_le rest _)

theorem flatten_length_of_ascii (f : Nat → List Nat)
    (hf : ∀ r, isASCII (f r) = true → (f r).length = 1) :
    ∀ rs : List Nat, isASCII (rs.map f).flatten = true → (rs.map f).flatten.length = rs.length
  | [], _ => rfl
  | r :: rs, h => by
    simp only [List.map_cons, List.flatten_cons, isASCII, List.all_append, Bool.and_eq_true] at h
    simp only [List.map_cons, List.flatten_cons, List.length_append, List.length_cons]
    rw [hf r h.1, flatten_length_of_ascii f hf rs h.2]; omega

theorem ToLower_length_le (lc : Nat → Nat) (s : List Nat) (h : isASCII (ToLower lc s) = true) :
    (ToLower lc s).length ≤ s.length := by
  by_cases hs : isASCII s = true
  · rw [ToLower_of_ascii lc hs]; simp
  · have e : ToLower lc s
        = ((rangeRunes s 0).map (fun r => encodeRune (unicodeToLower lc r))).flatten := by
      unfold isASCII at hs
      unfold ToLower
      rw [if_neg hs]
    rw [e] at h ⊢
    rw [flatten_length_of_ascii _ (fun r hr => encodeRune_length_one hr) _ h]
    exact rangeRunes_length_le s 0

set_option maxRecDepth 1000000 in
theorem shortColorHex_table :
    ∀ p ∈ shortColorHex, isASCII p.1 = true ∧ p.2.length ≤ p.1.length ∧ isASCII p.2 = true ∧
      shortColorHex.lookup (p.2.map asciiLower) = none := by
  decide

set_option maxRecDepth 1000000 in
theorem shortColorName_table :
    ∀ p ∈ shortColorName, isASCII p.2 = true ∧ p.2.length ≤ 6 ∧
      shortColorHex.lookup (p.2.map asciiLower) = none ∧
      (doubledKey p.1.toNat → p.2.length ≤ 3) := by
  decide

theorem mangleColor_ident (lc : Nat → Nat) (text : List Nat) :
    mangleColor lc ⟨T.TIdent, text⟩ = some (
      match shortColorHex.lookup (ToLower lc text) with
      | some hex => ⟨T.TIdent, hex⟩
      | none => ⟨T.TIdent, text⟩) := by
  simp only [mangleColor]
  cases List.lookup _ shortColorHex <;> rfl

theorem mangleColor_ident_fixed (lc : Nat → Nat) {text : List Nat} (ha : isASCII text = true)
    (hn : shortColorHex.lookup (text.map asciiLower) = none) :
    mangleColor lc ⟨T.TIdent, text⟩ = some ⟨T.TIdent, text⟩ := by
  rw [mangleColor_ident, ToLower_of_ascii lc ha, hn]

theorem mangleColor_name_fixed (lc : Nat → Nat) {key : Int} {name : List Nat}
    (h : shortColorName.lookup key = some name) :
    mangleColor lc ⟨T.TIdent, name⟩ = some ⟨T.TIdent, name⟩ := by
  have := shortColorName_table _ (mem_of_lookup h)
  exact mangleColor_ident_fixed lc this.1 this.2.2.1

theorem name_length_le (key : Int) (name : List Nat)
    (h : shortColorName.lookup key = some name) : name.length ≤ 6 :=
  (shortColorName_table _ (mem_of_lookup h)).2.1

theorem doubledKey_colorKey {c1 c2 c3 : Nat} (h1 : isHexDigit c1) (h2 : isHexDigit c2)
    (h3 : isHexDigit c3) : doubledKey (colorKey c1 c1 c2 c2 c3 c3).toNat := by
  have := hexVal_lt h1
  have := hexVal_lt h2
  have := hexVal_lt h3
  simp only [colorKey, Int.toNat_ofNat, rgb24, doubledKey]
  generalize hexVal c1 = a at *
  generalize hexVal c2 = b at *
  generalize hexVal c3 = c at *
  have e1 : (a * 1048576 + a * 65536 + b * 4096 + b * 256 + c * 16 + c) / 1048576 = a := by omega
  have e2 : (a * 1048576 + a * 65536 + b * 4096 + b * 256 + c * 16 + c) / 65536
      = 16 * a + a := by omega
  have e3 : (a * 1048576 + a * 65536 + b * 4096 + b * 256 + c * 16 + c) / 4096
      = 256 * a + 16 * a + b := by omega
  have e4 : (a * 1048576 + a * 65536 + b * 4096 + b * 256 + c * 16 + c) / 256
      = 16 * (256 * a + 16 * a + b) + b := by omega
  have e5 : (a * 1048576 + a * 65536 + b * 4096 + b * 256 + c * 16 + c) / 16
      = 16 * (16 * (256 * a + 16 * a + b) + b) + c := by omega
  rw [e1, e2, e3, e4, e5]
  omega

theorem name3_length_le {c1 c2 c3 : Nat} (h1 : isHexDigit c1) (h2 : isHexDigit c2)
    (h3 : isHexDigit c3) {name : List Nat}
    (h : shortColorName.lookup (colorKey c1 c1 c2 c2 c3 c3) = some name) : name.length ≤ 3 :=
  (shortColorName_table _ (mem_of_lookup h)).2.2.2 (doubledKey_colorKey h1 h2 h3)

/-- The 3-digit literal of lower-cased digits is a fixed point when its value has no name. -/
theorem mangleColor_hex3_fixed (lc : Nat → Nat) {k : T} (hk : isHashKind k) {c1 c2 c3 : Nat}
    (h1 : isHexDigit c1) (h2 : isHexDigit c2) (h3 : isHexDigit c3) (a b c : Nat)
    (ha : foldHex a = foldHex c1) (hb : foldHex b = foldHex c2) (hc : foldHex c = foldHex c3)
    (hx : isHexDigit a) (hy : isHexDigit b) (hz : isHexDigit c)
    (hn : shortColorName.lookup (colorKey c1 a c2 b c3 c) = none) :
    mangleColor lc ⟨k, [35, foldHex c1, foldHex c2, foldHex c3]⟩
      = some ⟨k, [35, foldHex c1, foldHex c2, foldHex c3]⟩ := by
  rw [mangleColor_len4 lc hk]
  have hkey : colorKey (foldHex c1) (foldHex c1) (foldHex c2) (foldHex c2) (foldHex c3)
      (foldHex c3) = colorKey c1 a c2 b c3 c := by
    rw [foldHex_eq_iff hx h1] at ha
    rw [foldHex_eq_iff hy h2] at hb
    rw [foldHex_eq_iff hz h3] at hc
    simp only [colorKey, hexVal_foldHex, ha, hb, hc]
  simp only [isHexDigit_foldHex h1, isHexDigit_foldHex h2, isHexDigit_foldHex h3, and_self,
    if_true, hkey, hn]

theorem hash_text_cases (text : List Nat) :
    (text.length ≠ 4 ∧ text.length ≠ 5 ∧ text.length ≠ 7 ∧ text.length ≠ 9) ∨
    (∃ c0 c1 c2 c3, text = [c0, c1, c2, c3]) ∨
    (∃ c0 c1 c2 c3 c4, text = [c0, c1, c2, c3, c4]) ∨
    (∃ c0 c1 c2 c3 c4 c5 c6, text = [c0, c1, c2, c3, c4, c5, c6]) ∨
    (∃ c0 c1 c2 c3 c4 c5 c6 c7 c8, text = [c0, c1, c2, c3, c4, c5, c6, c7, c8]) := by
  rcases text with _ | ⟨c0, _ | ⟨c1, _ | ⟨c2, _ | ⟨c3, _ | ⟨c4, _ | ⟨c5, _ | ⟨c6, _ | ⟨c7,
    _ | ⟨c8, _ | ⟨c9, rest⟩⟩⟩⟩⟩⟩⟩⟩⟩⟩ <;> simp

/-- The 6-digit literal of lower-cased digits is a fixed point when its value has no name
and some channel is not doubled. -/
theorem mangleColor_hex6_fixed (lc : Nat → Nat) {k : T} (hk : isHashKind k)
    {c1 c2 c3 c4 c5 c6 : Nat} (h1 : isHexDigit c1) (h2 : isHexDigit c2) (h3 : isHexDigit c3)
    (h4 : isHexDigit c4) (h5 : isHexDigit c5) (h6 : isHexDigit c6)
    (hn : shortColorName.lookup (colorKey c1 c2 c3 c4 c5 c6) = none)
    (hd : ¬ doubled c1 c2 c3 c4 c5 c6) :
    mangleColor lc ⟨k, [35, foldHex c1, foldHex c2, foldHex c3, foldHex c4, foldHex c5,
      foldHex c6]⟩ = some ⟨k, [35, foldHex c1, foldHex c2, foldHex c3, foldHex c4, foldHex c5,
      foldHex c6]⟩ := by
  rw [mangleColor_len7 lc hk]
  have hkey : colorKey (foldHex c1) (foldHex c2) (foldHex c3) (foldHex c4) (foldHex c5)
      (foldHex c6) = colorKey c1 c2 c3 c4 c5 c6 := by
    simp only [colorKey, hexVal_foldHex]
  have hd2 : ¬ doubled (foldHex c1) (foldHex c2) (foldHex c3) (foldHex c4) (foldHex c5)
      (foldHex c6) := by
    simpa only [doubled, foldHex_foldHex, h1, h2, h3, h4, h5, h6] using hd
  simp only [isHexDigit_foldHex, h1, h2, h3, h4, h5, h6, and_self, if_true, hkey, hn, hd2,
    if_false]

/-- The 4-digit literal of lower-cased digits is a fixed point when its alpha digit is not
`f`. -/
theorem mangleColor_hex4_fixed (lc : Nat → Nat) {k : T} (hk : isHashKind k)
    {c1 c2 c3 c4 : Nat} (h4 : isHexDigit c4) (ha : ¬ foldHex c4 = 102) :
    mangleColor lc ⟨k, [35, foldHex c1, foldHex c2, foldHex c3, foldHex c4]⟩
      = some ⟨k, [35, foldHex c1, foldHex c2, foldHex c3, foldHex c4]⟩ := by
  rw [mangleColor_len5 lc hk]
  simp only [foldHex_foldHex h4, ha, and_false, if_false]

theorem mangleColor_hash_fixed_and_short (lc : Nat → Nat) {k : T} (hk : isHashKind k)
    (text : List Nat) :
    ∃ u, mangleColor lc ⟨k, text⟩ = some u ∧ mangleColor lc u = some u ∧
      u.Text.length ≤ text.length := by
  rcases hash_text_cases text with h | ⟨c0, c1, c2, c3, rfl⟩ | ⟨c0, c1, c2, c3, c4, rfl⟩ |
    ⟨c0, c1, c2, c3, c4, c5, c6, rfl⟩ | ⟨c0, c1, c2, c3, c4, c5, c6, c7, c8, rfl⟩
  · have e := mangleColor_other_len lc hk text h.1 h.2.1 h.2.2.1 h.2.2.2
    exact ⟨_, e, e, le_refl _⟩
  · have e := mangleColor_len4 lc hk c0 c1 c2 c3
    by_cases hh : isHexDigit c1 ∧ isHexDigit c2 ∧ isHexDigit c3
    · rw [if_pos hh] at e
      cases hl : shortColorName.lookup (colorKey c1 c1 c2 c2 c3 c3) with
      | none => rw [hl] at e; exact ⟨_, e, e, le_refl _⟩
      | some name =>
        rw [hl] at e
        refine ⟨_, e, mangleColor_name_fixed lc hl, ?_⟩
        have := name3_length_le hh.1 hh.2.1 hh.2.2 hl
        show name.length ≤ 4
        omega
    · rw [if_neg hh] at e; exact ⟨_, e, e, le_refl _⟩
  · have e := mangleColor_len5 lc hk c0 c1 c2 c3 c4
    by_cases hh : (isHexDigit c1 ∧ isHexDigit c2 ∧ isHexDigit c3 ∧ isHexDigit c4) ∧
        foldHex c4 = 102
    · rw [if_pos hh] at e
      obtain ⟨⟨h1, h2, h3, h4⟩, ha⟩ := hh
      cases hl : shortColorName.lookup (colorKey c1 c1 c2 c2 c3 c3) with
      | none =>
        rw [hl] at e
        exact ⟨_, e, mangleColor_hex3_fixed lc hk h1 h2 h3 c1 c2 c3 rfl rfl rfl h1 h2 h3 hl,
          by simp⟩
      | some name =>
        rw [hl] at e
        refine ⟨_, e, mangleColor_name_fixed lc hl, ?_⟩
        have := name3_length_le h1 h2 h3 hl
        show name.length ≤ 5
        omega
    · rw [if_neg hh] at e; exact ⟨_, e, e, le_refl _⟩
  · have e := mangleColor_len7 lc hk c0 c1 c2 c3 c4 c5 c6
    by_cases hh : isHexDigit c1 ∧ isHexDigit c2 ∧ isHexDigit c3 ∧ isHexDigit c4 ∧
        isHexDigit c5 ∧ isHexDigit c6
    · rw [if_pos hh] at e
      obtain ⟨h1, h2, h3, h4, h5, h6⟩ := hh
      cases hl : shortColorName.lookup (colorKey c1 c2 c3 c4 c5 c6) with
      | none =>
        rw [hl] at e
        by_cases hd : doubled c1 c2 c3 c4 c5 c6
        · simp only [if_pos hd] at e
          exact ⟨_, e, mangleColor_hex3_fixed lc hk h1 h3 h5 c2 c4 c6 hd.1.symm hd.2.1.symm
            hd.2.2.symm h2 h4 h6 hl, by simp⟩
        · simp only [if_neg hd] at e
          exact ⟨_, e, e, le_refl _⟩
      | some name =>
        rw [hl] at e
        refine ⟨_, e, mangleColor_name_fixed lc hl, ?_⟩
        have := name_length_le _ _ hl
        show name.length ≤ 7
        omega
    · rw [if_neg hh] at e; exact ⟨_, e, e, le_refl _⟩
  · have e := mangleColor_len9 lc hk c0 c1 c2 c3 c4 c5 c6 c7 c8
    by_cases hh : (isHexDigit c1 ∧ isHexDigit c2 ∧ isHexDigit c3 ∧ isHexDigit c4 ∧
        isHexDigit c5 ∧ isHexDigit c6 ∧ isHexDigit c7 ∧ isHexDigit c8) ∧
        foldHex c7 = foldHex c8
    · rw [if_pos hh] at e
      obtain ⟨⟨h1, h2, h3, h4, h5, h6, h7, h8⟩, he⟩ := hh
      by_cases ha : foldHex c7 = 102
      · rw [if_pos ha] at e
        cases hl : shortColorName.lookup (colorKey c1 c2 c3 c4 c5 c6) with
        | none =>
          rw [hl] at e
          by_cases hd : doubled c1 c2 c3 c4 c5 c6
          · simp only [if_pos hd] at e
            exact ⟨_, e, mangleColor_hex3_fixed lc hk h1 h3 h5 c2 c4 c6 hd.1.symm hd.2.1.symm
              hd.2.2.symm h2 h4 h6 hl, by simp⟩
          · simp only [if_neg hd] at e
            exact ⟨_, e, mangleColor_hex6_fixed lc hk h1 h2 h3 h4 h5 h6 hl hd, by simp⟩
        | some name =>
          rw [hl] at e
          refine ⟨_, e, mangleColor_name_fixed lc hl, ?_⟩
          have := name_length_le _ _ hl
          show name.length ≤ 9
          omega
      · rw [if_neg ha] at e
        by_cases hd : doubled c1 c2 c3 c4 c5 c6
        · rw [if_pos hd] at e
          exact ⟨_, e, mangleColor_hex4_fixed lc hk h7 ha, by simp⟩
        · rw [if_neg hd] at e; exact ⟨_, e, e, le_refl _⟩
    · rw [if_neg hh] at e; exact ⟨_, e, e, le_refl _⟩

/-- Every result of `mangleColor` is a fixed point of `mangleColor` and is no longer than the
input. -/
theorem mangleColor_fixed_and_short (lc : Nat → Nat) (t : Token) :
    ∃ u, mangleColor lc t = some u ∧ mangleColor lc u = some u ∧
      u.Text.length ≤ t.Text.length := by
  obtain ⟨k, text⟩ := t
  cases k with
  | TOther n => exact ⟨_, rfl, rfl, le_refl _⟩
  | TIdent =>
    have e := mangleColor_ident lc text
    cases hl : shortColorHex.lookup (ToLower lc text) with
    | none =>
      rw [hl] at e
      exact ⟨_, e, e, le_refl _⟩
    | some hex =>
      rw [hl] at e
      have ht := shortColorHex_table _ (mem_of_lookup hl)
      refine ⟨_, e, mangleColor_ident_fixed lc ht.2.2.1 ht.2.2.2, ?_⟩
      exact le_trans ht.2.1 (ToLower_length_le lc text ht.1)
  | THash => exact mangleColor_hash_fixed_and_short lc (Or.inl rfl) text
  | THashID => exact mangleColor_hash_fixed_and_short lc (Or.inr rfl) text

set_option maxRecDepth 1000000 in
theorem shortColorName_names :
    ∀ p ∈ shortColorName, shortColorName.find? (fun q => q.2 == p.2) = some p := by
  decide

theorem decodeName_of_lookup {key : Int} {name : List Nat}
    (h : shortColorName.lookup key = some name) :
    decodeName name = some (keyChannels key.toNat) := by
  have := shortColorName_names _ (mem_of_lookup h)
  simp only at this
  simp only [decodeName, this, Option.map_some']

theorem keyChannels_colorKey {c1 c2 c3 c4 c5 c6 : Nat} (h1 : isHexDigit c1)
    (h2 : isHexDigit c2) (h3 : isHexDigit c3) (h4 : isHexDigit c4) (h5 : isHexDigit c5)
    (h6 : isHexDigit c6) :
    keyChannels (colorKey c1 c2 c3 c4 c5 c6).toNat =
      (16 * hexVal c1 + hexVal c2, 16 * hexVal c3 + hexVal c4, 16 * hexVal c5 + hexVal c6,
        255) := by
  have := hexVal_lt h1
  have := hexVal_lt h2
  have := hexVal_lt h3
  have := hexVal_lt h4
  have := hexVal_lt h5
  have := hexVal_lt h6
  simp only [colorKey, Int.toNat_ofNat, rgb24, keyChannels]
  generalize hexVal c1 = a at *
  generalize hexVal c2 = b at *
  generalize hexVal c3 = c at *
  generalize hexVal c4 = d at *
  generalize hexVal c5 = e at *
  generalize hexVal c6 = f at *
  have e1 : (a * 1048576 + b * 65536 + c * 4096 + d * 256 + e * 16 + f) / 65536
      = 16 * a + b := by omega
  have e2 : (a * 1048576 + b * 65536 + c * 4096 + d * 256 + e * 16 + f) / 256
      = 256 * (16 * a + b) + (16 * c + d) := by omega
  have e3 : (a * 1048576 + b * 65536 + c * 4096 + d * 256 + e * 16 + f) % 256
      = 16 * e + f := by omega
  rw [e1, e2, e3]
  have e4 : (16 * a + b) % 256 = 16 * a + b := by omega
  have e5 : (256 * (16 * a + b) + (16 * c + d)) % 256 = 16 * c + d := by omega
  rw [e4, e5]

theorem decodeColor_hash {k : T} (hk : isHashKind k) (text : List Nat) :
    decodeColor ⟨k, text⟩ = decodeHash text := by
  rcases hk with rfl | rfl <;> rfl

theorem decodeHash3 {c1 c2 c3 : Nat} (h1 : isHexDigit c1) (h2 : isHexDigit c2)
    (h3 : isHexDigit c3) :
    decodeHash [35, foldHex c1, foldHex c2, foldHex c3] =
      some (16 * hexVal c1 + hexVal c1, 16 * hexVal c2 + hexVal c2, 16 * hexVal c3 + hexVal c3,
        255) := by
  simp only [decodeHash, isHexDigit_foldHex, h1, h2, h3, and_self, if_true, hexVal_foldHex]

theorem doubled_vals {c1 c2 c3 c4 c5 c6 : Nat} (h1 : isHexDigit c1) (h2 : isHexDigit c2)
    (h3 : isHexDigit c3) (h4 : isHexDigit c4) (h5 : isHexDigit c5) (h6 : isHexDigit c6)
    (hd : doubled c1 c2 c3 c4 c5 c6) :
    hexVal c2 = hexVal c1 ∧ hexVal c4 = hexVal c3 ∧ hexVal c6 = hexVal c5 :=
  ⟨((foldHex_eq_iff h1 h2).1 hd.1).symm, ((foldHex_eq_iff h3 h4).1 hd.2.1).symm,
    ((foldHex_eq_iff h5 h6).1 hd.2.2).symm⟩

/-! ## The claims -/

/-- C1: `mangleColor` is idempotent: on every token (any kind, any text) it returns a token,
and applying it to that token returns the same token again, kind and text. -/
theorem C1_idempotent (lc : Nat → Nat) (t : Token) :
    ∃ u, mangleColor lc t = some u ∧ mangleColor lc u = some u := by
  obtain ⟨u, h1, h2, _⟩ := mangleColor_fixed_and_short lc t
  exact ⟨u, h1, h2⟩

/-- C2: `mangleColor` never lengthens a token: the text of the result has at most as many
bytes as the text of the input.  The tables are as this needs: every key of `shortColorHex`
is at least as long as its value, every name of `shortColorName` has at most 6 bytes (fewer
than a 6- or 8-digit literal), and the name of a value with doubled digits has at most 3
bytes (fewer than a 3- or 4-digit literal). -/
theorem C2_never_longer (lc : Nat → Nat) (t : Token) :
    (∃ u, mangleColor lc t = some u ∧ u.Text.length ≤ t.Text.length) ∧
    (∀ p ∈ shortColorHex, p.2.length ≤ p.1.length) ∧
    (∀ p ∈ shortColorName, p.2.length ≤ 6 ∧ (doubledKey p.1.toNat → p.2.length ≤ 3)) := by
  refine ⟨?_, fun p hp => (shortColorHex_table p hp).2.1,
    fun p hp => ⟨(shortColorName_table p hp).2.1, (shortColorName_table p hp).2.2.2⟩⟩
  obtain ⟨u, h1, _, h3⟩ := mangleColor_fixed_and_short lc t
  exact ⟨u, h1, h3⟩

/-- C3: `mangleColor` preserves the color of hash literals: for a hash token whose text is
`#` followed by 3, 4, 6 or 8 hex digits, the RGBA value decoded from the result equals the
RGBA value decoded from the input (3- and 4-digit forms double each digit, a missing alpha
is 255, a name decodes to its key in `shortColorName` at alpha 255).  So the RGB channels
of a fully transparent color are kept. -/
theorem C3_color_preserved (lc : Nat → Nat) (t : Token) (hk : isHashKind t.Kind)
    (hlit : isHashLiteral t.Text) :
    ∃ u rgba, mangleColor lc t = some u ∧ decodeColor t = some rgba ∧
      decodeColor u = some rgba := by
  obtain ⟨k, text⟩ := t
  simp only at hk hlit
  obtain ⟨ds, rfl, hlen, hall⟩ := hlit
  rcases ds with _ | ⟨c1, _ | ⟨c2, _ | ⟨c3, _ | ⟨c4, _ | ⟨c5, _ | ⟨c6, _ | ⟨c7, _ | ⟨c8,
    _ | ⟨c9, rest⟩⟩⟩⟩⟩⟩⟩⟩⟩ <;> simp at hlen
  · -- three digits
    have h1 : isHexDigit c1 := hall c1 (by simp)
    have h2 : isHexDigit c2 := hall c2 (by simp)
    have h3 : isHexDigit c3 := hall c3 (by simp)
    have e := mangleColor_len4 lc hk 35 c1 c2 c3
    rw [if_pos ⟨h1, h2, h3⟩] at e
    have d : decodeColor ⟨k, [35, c1, c2, c3]⟩ = some (16 * hexVal c1 + hexVal c1,
        16 * hexVal c2 + hexVal c2, 16 * hexVal c3 + hexVal c3, 255) := by
      rw [decodeColor_hash hk]; simp only [decodeHash, h1, h2, h3, and_self, if_true]
    cases hl : shortColorName.lookup (colorKey c1 c1 c2 c2 c3 c3) with
    | none => rw [hl] at e; exact ⟨_, _, e, d, d⟩
    | some name =>
      rw [hl] at e
      refine ⟨_, _, e, d, ?_⟩
      show decodeName name = _
      rw [decodeName_of_lookup hl, keyChannels_colorKey h1 h1 h2 h2 h3 h3]
  · -- four digits
    have h1 : isHexDigit c1 := hall c1 (by simp)
    have h2 : isHexDigit c2 := hall c2 (by simp)
    have h3 : isHexDigit c3 := hall c3 (by simp)
    have h4 : isHexDigit c4 := hall c4 (by simp)
    have e := mangleColor_len5 lc hk 35 c1 c2 c3 c4
    have d : decodeColor ⟨k, [35, c1, c2, c3, c4]⟩ = some (16 * hexVal c1 + hexVal c1,
        16 * hexVal c2 + hexVal c2, 16 * hexVal c3 + hexVal c3, 16 * hexVal c4 + hexVal c4) := by
      rw [decodeColor_hash hk]; simp only [decodeHash, h1, h2, h3, h4, and_self, if_true]
    by_cases ha : foldHex c4 = 102
    · rw [if_pos ⟨⟨h1, h2, h3, h4⟩, ha⟩] at e
      have hv : hexVal c4 = 15 := (foldHex_eq_f_iff_val h4).1 ha
      rw [hv] at d
      cases hl : shortColorName.lookup (colorKey c1 c1 c2 c2 c3 c3) with
      | none =>
        rw [hl] at e
        refine ⟨_, _, e, d, ?_⟩
        rw [decodeColor_hash hk]
        exact decodeHash3 h1 h2 h3
      | some name =>
        rw [hl] at e
        refine ⟨_, _, e, d, ?_⟩
        show decodeName name = _
        rw [decodeName_of_lookup hl, keyChannels_colorKey h1 h1 h2 h2 h3 h3]
    · rw [if_neg (fun h => ha h.2)] at e
      exact ⟨_, _, e, d, d⟩
  · -- six digits
    have h1 : isHexDigit c1 := hall c1 (by simp)
    have h2 : isHexDigit c2 := hall c2 (by simp)
    have h3 : isHexDigit c3 := hall c3 (by simp)
    have h4 : isHexDigit c4 := hall c4 (by simp)
    have h5 : isHexDigit c5 := hall c5 (by simp)
    have h6 : isHexDigit c6 := hall c6 (by simp)
    have e := mangleColor_len7 lc hk 35 c1 c2 c3 c4 c5 c6
    rw [if_pos ⟨h1, h2, h3, h4, h5, h6⟩] at e
    have d : decodeColor ⟨k, [35, c1, c2, c3, c4, c5, c6]⟩ = some (16 * hexVal c1 + hexVal c2,
        16 * hexVal c3 + hexVal c4, 16 * hexVal c5 + hexVal c6, 255) := by
      rw [decodeColor_hash hk]
      simp only [decodeHash, h1, h2, h3, h4, h5, h6, and_self, if_true]
    cases hl : shortColorName.lookup (colorKey c1 c2 c3 c4 c5 c6) with
    | none =>
      rw [hl] at e
      by_cases hd : doubled c1 c2 c3 c4 c5 c6
      · simp only [if_pos hd] at e
        refine ⟨_, _, e, d, ?_⟩
        obtain ⟨v1, v2, v3⟩ := doubled_vals h1 h2 h3 h4 h5 h6 hd
        rw [decodeColor_hash hk, decodeHash3 h1 h3 h5, v1, v2, v3]
      · simp only [if_neg hd] at e
        exact ⟨_, _, e, d, d⟩
    | some name =>
      rw [hl] at e
      refine ⟨_, _, e, d, ?_⟩
      show decodeName name = _
      rw [decodeName_of_lookup hl, keyChannels_colorKey h1 h2 h3 h4 h5 h6]
  · -- eight digits
    have h1 : isHexDigit c1 := hall c1 (by simp)
    have h2 : isHexDigit c2 := hall c2 (by simp)
    have h3 : isHexDigit c3 := hall c3 (by simp)
    have h4 : isHexDigit c4 := hall c4 (by simp)
    have h5 : isHexDigit c5 := hall c5 (by simp)
    have h6 : isHexDigit c6 := hall c6 (by simp)
    have h7 : isHexDigit c7 := hall c7 (by simp)
    have h8 : isHexDigit c8 := hall c8 (by simp)
    have e := mangleColor_len9 lc hk 35 c1 c2 c3 c4 c5 c6 c7 c8
    have d : decodeColor ⟨k, [35, c1, c2, c3, c4, c5, c6, c7, c8]⟩ =
        some (16 * hexVal c1 + hexVal c2, 16 * hexVal c3 + hexVal c4,
          16 * hexVal c5 + hexVal c6, 16 * hexVal c7 + hexVal c8) := by
      rw [decodeColor_hash hk]
      simp only [decodeHash, h1, h2, h3, h4, h5, h6, h7, h8, and_self, if_true]
    by_cases he : foldHex c7 = foldHex c8
    · rw [if_pos ⟨⟨h1, h2, h3, h4, h5, h6, h7, h8⟩, he⟩] at e
      have hv8 : hexVal c8 = hexVal c7 := ((foldHex_eq_iff h7 h8).1 he).symm
      by_cases ha : foldHex c7 = 102
      · rw [if_pos ha] at e
        have hv : hexVal c7 = 15 := (foldHex_eq_f_iff_val h7).1 ha
        rw [hv8, hv] at d
        cases hl : shortColorName.lookup (colorKey c1 c2 c3 c4 c5 c6) with
        | none =>
          rw [hl] at e
          by_cases hd : doubled c1 c2 c3 c4 c5 c6
          · simp only [if_pos hd] at e
            refine ⟨_, _, e, d, ?_⟩
            obtain ⟨v1, v2, v3⟩ := doubled_vals h1 h2 h3 h4 h5 h6 hd
            rw [decodeColor_hash hk, decodeHash3 h1 h3 h5, v1, v2, v3]
          · simp only [if_neg hd] at e
            refine ⟨_, _, e, d, ?_⟩
            rw [decodeColor_hash hk]
            simp only [decodeHash, isHexDigit_foldHex, h1, h2, h3, h4, h5, h6, and_self,
              if_true, hexVal_foldHex]
        | some name =>
          rw [hl] at e
          refine ⟨_, _, e, d, ?_⟩
          show decodeName name = _
          rw [decodeName_of_lookup hl, keyChannels_colorKey h1 h2 h3 h4 h5 h6]
      · rw [if_neg ha] at e
        by_cases hd : doubled c1 c2 c3 c4 c5 c6
        · rw [if_pos hd] at e
          refine ⟨_, _, e, d, ?_⟩
          obtain ⟨v1, v2, v3⟩ := doubled_vals h1 h2 h3 h4 h5 h6 hd
          rw [decodeColor_hash hk]
          simp only [decodeHash, isHexDigit_foldHex, h1, h3, h5, h7, and_self, if_true,
            hexVal_foldHex, v1, v2, v3, hv8]
        · rw [if_neg hd] at e
          exact ⟨_, _, e, d, d⟩
    · rw [if_neg (fun h => he h.2)] at e
      exact ⟨_, _, e, d, d⟩

/-- C3 at the fully transparent `#11223300`, which becomes `#1230` with the same RGBA. -/
theorem C3_color_preserved_witness :
    ∃ u rgba, mangleColor id ⟨T.THash, bytes "#11223300"⟩ = some u ∧
      decodeColor ⟨T.THash, bytes "#11223300"⟩ = some rgba ∧ decodeColor u = some rgba :=
  C3_color_preserved id ⟨T.THash, bytes "#11223300"⟩ (Or.inl rfl)
    ⟨bytes "11223300", rfl, by decide, by decide⟩

/-- C4 (as stated, refuted): on the hash token `#ff000080` the result of `mangleColor` is
not the hash token `#f008`. -/
theorem C4_not_shortened :
    mangleColor id ⟨T.THash, bytes "#ff000080"⟩ ≠ some ⟨T.THash, bytes "#f008"⟩ := by
  decide

/-- C4 (amended): the hash token `#ff000080` is returned unchanged, because its two alpha
digits `8` and `0` differ; it is the hash token `#ff000088` that becomes `#f008`. -/
theorem C4_alpha_digits_must_agree (lc : Nat → Nat) :
    mangleColor lc ⟨T.THash, bytes "#ff000080"⟩ = some ⟨T.THash, bytes "#ff000080"⟩ ∧
    mangleColor lc ⟨T.THash, bytes "#ff000088"⟩ = some ⟨T.THash, bytes "#f008"⟩ := by
  constructor <;> rfl

/-- C5: a hash token with exactly four hex digits is returned unchanged (same kind, same
text) if and only if its alpha digit is neither `f` nor `F`. -/
theorem C5_four_digits_unchanged_iff (lc : Nat → Nat) (k : T) (c1 c2 c3 c4 : Nat)
    (hk : isHashKind k) (h1 : isHexDigit c1) (h2 : isHexDigit c2) (h3 : isHexDigit c3)
    (h4 : isHexDigit c4) :
    mangleColor lc ⟨k, [35, c1, c2, c3, c4]⟩ = some ⟨k, [35, c1, c2, c3, c4]⟩ ↔
      ¬ (c4 = 102 ∨ c4 = 70) := by
  rw [mangleColor_len5 lc hk, ← foldHex_eq_f]
  by_cases ha : foldHex c4 = 102
  · simp only [h1, h2, h3, h4, ha, and_self, if_true, not_true, iff_false]
    cases List.lookup _ shortColorName
    · simp
    · rcases hk with rfl | rfl <;> simp
  · simp [ha]

/-- C5 at `#1230`: full transparency keeps the token as written. -/
theorem C5_four_digits_unchanged_iff_witness :
    mangleColor id ⟨T.THash, [35, 49, 50, 51, 48]⟩ = some ⟨T.THash, [35, 49, 50, 51, 48]⟩ ↔
      ¬ ((48 : Nat) = 102 ∨ (48 : Nat) = 70) :=
  C5_four_digits_unchanged_iff id T.THash 49 50 51 48 (Or.inl rfl) (by decide) (by decide)
    (by decide) (by decide)

/-- C6 (as stated, refuted): in `#AABBCC` each channel's two digits are equal, and yet the
result `#abc` differs from the result `#ABC` on the collapsed 3-digit literal `#ABC`. -/
theorem C6_upper_case_collapse_differs :
    mangleColor id ⟨T.THash, bytes "#AABBCC"⟩ ≠ mangleColor id ⟨T.THash, bytes "#ABC"⟩ ∧
    mangleColor id ⟨T.THash, bytes "#AABBCC"⟩ = some ⟨T.THash, bytes "#abc"⟩ ∧
    mangleColor id ⟨T.THash, bytes "#ABC"⟩ = some ⟨T.THash, bytes "#ABC"⟩ := by
  decide

/-- C6 (amended): on a hash token with exactly six hex digits, if each channel's two digits
are equal after case folding, the result is the result on the collapsed 3-digit literal
`#rgb` built from the lower-cased digits, which is the name of `shortColorName` for its
value if there is one and that lower-case `#rgb` otherwise; if some channel is not doubled,
the result is the identifier named by `shortColorName` for the 24-bit value if there is
one, and the unchanged token otherwise.  `#ff0000` gives `red` and `#000080` gives `navy`. -/
theorem C6_six_digits (lc : Nat → Nat) (k : T) (c1 c2 c3 c4 c5 c6 : Nat) (hk : isHashKind k)
    (h1 : isHexDigit c1) (h2 : isHexDigit c2) (h3 : isHexDigit c3) (h4 : isHexDigit c4)
    (h5 : isHexDigit c5) (h6 : isHexDigit c6) :
    mangleColor lc ⟨k, [35, c1, c2, c3, c4, c5, c6]⟩ =
      (if doubled c1 c2 c3 c4 c5 c6 then
        mangleColor lc ⟨k, [35, foldHex c1, foldHex c3, foldHex c5]⟩
      else
        match shortColorName.lookup (colorKey c1 c2 c3 c4 c5 c6) with
        | some name => some ⟨T.TIdent, name⟩
        | none => some ⟨k, [35, c1, c2, c3, c4, c5, c6]⟩) ∧
    mangleColor lc ⟨k, [35, foldHex c1, foldHex c3, foldHex c5]⟩ =
      (match shortColorName.lookup (colorKey c1 c1 c3 c3 c5 c5) with
        | some name => some ⟨T.TIdent, name⟩
        | none => some ⟨k, [35, foldHex c1, foldHex c3, foldHex c5]⟩) ∧
    mangleColor lc ⟨T.THash, bytes "#ff0000"⟩ = some ⟨T.TIdent, bytes "red"⟩ ∧
    mangleColor lc ⟨T.THash, bytes "#000080"⟩ = some ⟨T.TIdent, bytes "navy"⟩ := by
  have e3 : mangleColor lc ⟨k, [35, foldHex c1, foldHex c3, foldHex c5]⟩ =
      (match shortColorName.lookup (colorKey c1 c1 c3 c3 c5 c5) with
        | some name => some ⟨T.TIdent, name⟩
        | none => some ⟨k, [35, foldHex c1, foldHex c3, foldHex c5]⟩) := by
    rw [mangleColor_len4 lc hk]
    have hk3 : colorKey (foldHex c1) (foldHex c1) (foldHex c3) (foldHex c3) (foldHex c5)
        (foldHex c5) = colorKey c1 c1 c3 c3 c5 c5 := by
      simp only [colorKey, hexVal_foldHex]
    simp only [isHexDigit_foldHex h1, isHexDigit_foldHex h3, isHexDigit_foldHex h5, and_self,
      if_true, hk3]
    cases List.lookup _ shortColorName <;> rfl
  refine ⟨?_, e3, rfl, rfl⟩
  rw [mangleColor_len7 lc hk]
  simp only [h1, h2, h3, h4, h5, h6, and_self, if_true]
  by_cases hd : doubled c1 c2 c3 c4 c5 c6
  · have hkey := colorKey_doubled h1 h2 h3 h4 h5 h6 hd
    have hk3 : colorKey (foldHex c1) (foldHex c1) (foldHex c3) (foldHex c3) (foldHex c5)
        (foldHex c5) = colorKey c1 c1 c3 c3 c5 c5 := by
      simp only [colorKey, hexVal_foldHex]
    rw [e3, ← hk3, hkey]
    simp only [if_pos hd]
    cases List.lookup _ shortColorName <;> rfl
  · simp only [if_neg hd]
    cases List.lookup _ shortColorName <;> rfl

/-- C6 (amended) at `#AAbbCC`: all channels doubled, no name: the result is `#abc`. -/
theorem C6_six_digits_witness :
    mangleColor id ⟨T.THash, [35, 65, 65, 98, 98, 67, 67]⟩ =
      (if doubled 65 65 98 98 67 67 then
        mangleColor id ⟨T.THash, [35, foldHex 65, foldHex 98, foldHex 67]⟩
      else
        match shortColorName.lookup (colorKey 65 65 98 98 67 67) with
        | some name => some ⟨T.TIdent, name⟩
        | none => some ⟨T.THash, [35, 65, 65, 98, 98, 67, 67]⟩) ∧
    mangleColor id ⟨T.THash, [35, foldHex 65, foldHex 98, foldHex 67]⟩ =
      (match shortColorName.lookup (colorKey 65 65 98 98 67 67) with
        | some name => some ⟨T.TIdent, name⟩
        | none => some ⟨T.THash, [35, foldHex 65, foldHex 98, foldHex 67]⟩) ∧
    mangleColor id ⟨T.THash, bytes "#ff0000"⟩ = some ⟨T.TIdent, bytes "red"⟩ ∧
    mangleColor id ⟨T.THash, bytes "#000080"⟩ = some ⟨T.TIdent, bytes "navy"⟩ :=
  C6_six_digits id T.THash 65 65 98 98 67 67 (Or.inl rfl) (by decide) (by decide) (by decide)
    (by decide) (by decide) (by decide)

/-- C7 (as stated, refuted): on `#AABBCDFF` the result differs from the result on the
literal `#AABBCD` obtained by dropping the two alpha digits. -/
theorem C7_upper_case_differs :
    mangleColor id ⟨T.THash, bytes "#AABBCDFF"⟩ ≠ mangleColor id ⟨T.THash, bytes "#AABBCD"⟩ := by
  decide

/-- C7 (amended): on a hash token with eight hex digits whose two alpha digits are both `f`
or `F`, the result is the result on the 6-digit hash literal formed by dropping the two
alpha digits and lower-casing the six remaining digits. -/
theorem C7_opaque_eight_digits (lc : Nat → Nat) (k : T) (c1 c2 c3 c4 c5 c6 c7 c8 : Nat)
    (hk : isHashKind k)
    (h1 : isHexDigit c1) (h2 : isHexDigit c2) (h3 : isHexDigit c3) (h4 : isHexDigit c4)
    (h5 : isHexDigit c5) (h6 : isHexDigit c6)
    (h7 : c7 = 102 ∨ c7 = 70) (h8 : c8 = 102 ∨ c8 = 70) :
    mangleColor lc ⟨k, [35, c1, c2, c3, c4, c5, c6, c7, c8]⟩ =
      mangleColor lc ⟨k, [35, foldHex c1, foldHex c2, foldHex c3, foldHex c4, foldHex c5,
        foldHex c6]⟩ := by
  have x7 : isHexDigit c7 := by unfold isHexDigit; omega
  have x8 : isHexDigit c8 := by unfold isHexDigit; omega
  have f7 : foldHex c7 = 102 := foldHex_eq_f.2 h7
  have f8 : foldHex c8 = 102 := foldHex_eq_f.2 h8
  have hd : doubled (foldHex c1) (foldHex c2) (foldHex c3) (foldHex c4) (foldHex c5)
      (foldHex c6) ↔ doubled c1 c2 c3 c4 c5 c6 := by
    simp only [doubled, foldHex_foldHex, h1, h2, h3, h4, h5, h6]
  have hkey : colorKey (foldHex c1) (foldHex c2) (foldHex c3) (foldHex c4) (foldHex c5)
      (foldHex c6) = colorKey c1 c2 c3 c4 c5 c6 := by
    simp only [colorKey, hexVal_foldHex]
  rw [mangleColor_len9 lc hk, mangleColor_len7 lc hk]
  simp only [h1, h2, h3, h4, h5, h6, x7, x8, f7, f8, isHexDigit_foldHex, and_self, if_true,
    hd, hkey, foldHex_foldHex]

/-- C7 (amended) at `#AABBCDFf`. -/
theorem C7_opaque_eight_digits_witness :
    mangleColor id ⟨T.THash, [35, 65, 65, 66, 66, 67, 68, 70, 102]⟩ =
      mangleColor id ⟨T.THash, [35, foldHex 65, foldHex 65, foldHex 66, foldHex 66, foldHex 67,
        foldHex 68]⟩ :=
  C7_opaque_eight_digits id T.THash 65 65 66 66 67 68 70 102 (Or.inl rfl) (by decide)
    (by decide) (by decide) (by decide) (by decide) (by decide) (Or.inr rfl) (Or.inl rfl)

/-- C8: on a hash token with eight hex digits whose alpha byte is not `ff`, if the two alpha
digits are equal after case folding and every RGB channel has two equal digits, the result
is the 4-digit literal of the lower-cased channel digits and alpha digit; in every other
case the token is returned unchanged.  `#12345678` is unchanged. -/
theorem C8_translucent_eight_digits (lc : Nat → Nat) (k : T) (c1 c2 c3 c4 c5 c6 c7 c8 : Nat)
    (hk : isHashKind k)
    (h1 : isHexDigit c1) (h2 : isHexDigit c2) (h3 : isHexDigit c3) (h4 : isHexDigit c4)
    (h5 : isHexDigit c5) (h6 : isHexDigit c6) (h7 : isHexDigit c7) (h8 : isHexDigit c8)
    (halpha : hexVal c7 * 16 + hexVal c8 ≠ 255) :
    mangleColor lc ⟨k, [35, c1, c2, c3, c4, c5, c6, c7, c8]⟩ = some (
      if foldHex c7 = foldHex c8 ∧ doubled c1 c2 c3 c4 c5 c6 then
        ⟨k, [35, foldHex c1, foldHex c3, foldHex c5, foldHex c7]⟩
      else ⟨k, [35, c1, c2, c3, c4, c5, c6, c7, c8]⟩) ∧
    mangleColor lc ⟨T.THash, bytes "#12345678"⟩ = some ⟨T.THash, bytes "#12345678"⟩ := by
  refine ⟨?_, rfl⟩
  rw [mangleColor_len9 lc hk]
  simp only [h1, h2, h3, h4, h5, h6, h7, h8, and_self, true_and]
  by_cases he : foldHex c7 = foldHex c8
  · have hv := (foldHex_eq_iff h7 h8).1 he
    have hne : ¬ foldHex c7 = 102 := by
      rw [foldHex_eq_f_iff_val h7]
      intro h15
      have := hexVal_lt h8
      omega
    rw [if_pos he, if_neg hne]
    simp only [he, true_and]
  · simp only [he, if_false, false_and]

/-- C8 at `#AABBCC88`, which becomes `#abc8`. -/
theorem C8_translucent_eight_digits_witness :
    mangleColor id ⟨T.THash, [35, 65, 65, 66, 66, 67, 67, 56, 56]⟩ = some (
      if foldHex 56 = foldHex 56 ∧ doubled 65 65 66 66 67 67 then
        ⟨T.THash, [35, foldHex 65, foldHex 66, foldHex 67, foldHex 56]⟩
      else ⟨T.THash, [35, 65, 65, 66, 66, 67, 67, 56, 56]⟩) ∧
    mangleColor id ⟨T.THash, bytes "#12345678"⟩ = some ⟨T.THash, bytes "#12345678"⟩ :=
  C8_translucent_eight_digits id T.THash 65 65 66 66 67 67 56 56 (Or.inl rfl) (by decide)
    (by decide) (by decide) (by decide) (by decide) (by decide) (by decide) (by decide)
    (by decide)

/-- C9: on an identifier token, if the lower-cased text (whatever the letter case of the
text itself) is a key of `shortColorHex`, only the text is replaced, by the hex literal of
the table, and the kind stays identifier; otherwise the token is returned unchanged.
`white` and `WHITE` both give the text `#fff`. -/
theorem C9_identifier (lc : Nat → Nat) (text : List Nat) :
    mangleColor lc ⟨T.TIdent, text⟩ = some (
      match shortColorHex.lookup (ToLower lc text) with
      | some hex => ⟨T.TIdent, hex⟩
      | none => ⟨T.TIdent, text⟩) ∧
    mangleColor lc ⟨T.TIdent, bytes "white"⟩ = some ⟨T.TIdent, bytes "#fff"⟩ ∧
    mangleColor lc ⟨T.TIdent, bytes "WHITE"⟩ = some ⟨T.TIdent, bytes "#fff"⟩ := by
  refine ⟨?_, rfl, rfl⟩
  simp only [mangleColor]
  cases List.lookup _ shortColorHex <;> rfl

/-- C10: `mangleColor` degrades gracefully on malformed hash literals: a hash token whose
text has a byte after the first that is not a hex digit, or whose text length is not 4, 5, 7
or 9 bytes, is returned unchanged, and no index is out of range (the result is a token). -/
theorem C10_malformed_hash_unchanged (lc : Nat → Nat) (t : Token) (hk : isHashKind t.Kind)
    (hbad : (∃ c ∈ t.Text.tail, ¬ isHexDigit c) ∨
      (t.Text.length ≠ 4 ∧ t.Text.length ≠ 5 ∧ t.Text.length ≠ 7 ∧ t.Text.length ≠ 9)) :
    mangleColor lc t = some t := by
  obtain ⟨k, text⟩ := t
  simp only at hk hbad
  rcases hash_text_cases text with h | ⟨c0, c1, c2, c3, rfl⟩ | ⟨c0, c1, c2, c3, c4, rfl⟩ |
    ⟨c0, c1, c2, c3, c4, c5, c6, rfl⟩ | ⟨c0, c1, c2, c3, c4, c5, c6, c7, c8, rfl⟩
  · exact mangleColor_other_len lc hk text h.1 h.2.1 h.2.2.1 h.2.2.2
  · rw [mangleColor_len4 lc hk]
    have hh : ¬ (isHexDigit c1 ∧ isHexDigit c2 ∧ isHexDigit c3) := by
      rintro ⟨h1, h2, h3⟩
      simp [h1, h2, h3] at hbad
    rw [if_neg hh]
  · rw [mangleColor_len5 lc hk]
    have hh : ¬ ((isHexDigit c1 ∧ isHexDigit c2 ∧ isHexDigit c3 ∧ isHexDigit c4) ∧
        foldHex c4 = 102) := by
      rintro ⟨⟨h1, h2, h3, h4⟩, _⟩
      simp [h1, h2, h3, h4] at hbad
    rw [if_neg hh]
  · rw [mangleColor_len7 lc hk]
    have hh : ¬ (isHexDigit c1 ∧ isHexDigit c2 ∧ isHexDigit c3 ∧ isHexDigit c4 ∧
        isHexDigit c5 ∧ isHexDigit c6) := by
      rintro ⟨h1, h2, h3, h4, h5, h6⟩
      simp [h1, h2, h3, h4, h5, h6] at hbad
    rw [if_neg hh]
  · rw [mangleColor_len9 lc hk]
    have hh : ¬ ((isHexDigit c1 ∧ isHexDigit c2 ∧ isHexDigit c3 ∧ isHexDigit c4 ∧
        isHexDigit c5 ∧ isHexDigit c6 ∧ isHexDigit c7 ∧ isHexDigit c8) ∧
        foldHex c7 = foldHex c8) := by
      rintro ⟨⟨h1, h2, h3, h4, h5, h6, h7, h8⟩, _⟩
      simp [h1, h2, h3, h4, h5, h6, h7, h8] at hbad
    rw [if_neg hh]

/-- C10 at the hash token `#12g` (a byte that is not a hex digit). -/
theorem C10_malformed_hash_unchanged_witness :
    mangleColor id ⟨T.THash, [35, 49, 50, 103]⟩ = some ⟨T.THash, [35, 49, 50, 103]⟩ :=
  C10_malformed_hash_unchanged id ⟨T.THash, [35, 49, 50, 103]⟩ (Or.inl rfl)
    (Or.inl ⟨103, by decide, by decide⟩)

/-! ## The declaration scanner and lower-casing -/

theorem processRule_color (lc : Nat → Nat) (ms : Bool) (key : D) (value : List Token)
    (h : key ∈ colorProperties) :
    processRule lc ms (R.RDeclaration ⟨key, value⟩) =
      if (ms && value.length == 1) = true then
        (value[0]?).bind (fun token => (mangleColor lc token).bind (fun mangled =>
          some (R.RDeclaration ⟨key, value.set 0 mangled⟩)))
      else some (R.RDeclaration ⟨key, value⟩) := by
  cases key <;> first | rfl | (exfalso; revert h; decide) | (exfalso; simp [colorProperties] at h)

theorem processRule_other (lc : Nat → Nat) (ms : Bool) (key : D) (value : List Token)
    (h : key ∉ colorProperties) :
    processRule lc ms (R.RDeclaration ⟨key, value⟩) = some (R.RDeclaration ⟨key, value⟩) := by
  cases key <;> first | rfl | (exfalso; apply h; decide)

theorem processRule_outcome (lc : Nat → Nat) (ms : Bool) (rule : R) :
    ∃ after, processRule lc ms rule = some after ∧ ruleOutcome lc ms rule after := by
  cases rule with
  | ROther code =>
    refine ⟨_, rfl, fun _ => rfl, fun _ => rfl, ?_⟩
    intro _ key token h
    cases h
  | RDeclaration decl =>
    obtain ⟨key, value⟩ := decl
    by_cases hkey : key ∈ colorProperties
    · rw [processRule_color lc ms key value hkey]
      by_cases hcond : (ms && value.length == 1) = true
      · rw [if_pos hcond]
        simp only [Bool.and_eq_true, beq_iff_eq] at hcond
        obtain ⟨hms, hlen⟩ := hcond
        match value, hlen with
        | [token], _ =>
          obtain ⟨mangled, hm, _⟩ := mangleColor_fixed_and_short lc token
          refine ⟨R.RDeclaration ⟨key, [mangled]⟩, by simp [hm], ?_, ?_, ?_⟩
          · intro hne
            exact absurd ⟨_, rfl, hkey, rfl⟩ hne
          · intro hf; rw [hms] at hf; cases hf
          · intro _ key1 token1 heq _
            simp only [R.RDeclaration.injEq, RDeclaration.mk.injEq, List.cons.injEq,
              and_true] at heq
            obtain ⟨rfl, rfl⟩ := heq
            exact ⟨mangled, hm, rfl⟩
      · rw [if_neg hcond]
        refine ⟨_, rfl, fun _ => rfl, fun _ => rfl, ?_⟩
        intro hms key1 token1 heq _
        simp only [R.RDeclaration.injEq, RDeclaration.mk.injEq] at heq
        obtain ⟨rfl, rfl⟩ := heq
        simp [hms] at hcond
    · rw [processRule_other lc ms key value hkey]
      refine ⟨_, rfl, fun _ => rfl, fun _ => rfl, ?_⟩
      intro _ key1 token1 heq hk1
      simp only [R.RDeclaration.injEq, RDeclaration.mk.injEq] at heq
      exact absurd (heq.1 ▸ hk1) hkey

theorem asciiLower_eq_foldHex {c : Nat} (h : isHexDigit c) : asciiLower c = foldHex c := by
  unfold isHexDigit at h
  unfold asciiLower foldHex
  split_ifs <;> omega

theorem isHexDigit_asciiLower (c : Nat) : isHexDigit (asciiLower c) ↔ isHexDigit c := by
  unfold isHexDigit asciiLower
  split_ifs <;> omega

theorem asciiLower_foldHex {c : Nat} (h : isHexDigit c) : asciiLower (foldHex c) = foldHex c := by
  rw [asciiLower_eq_foldHex (isHexDigit_foldHex h), foldHex_foldHex h]

theorem foldHex_asciiLower {c : Nat} (h : isHexDigit c) : foldHex (asciiLower c) = foldHex c := by
  rw [asciiLower_eq_foldHex h, foldHex_foldHex h]

theorem hexVal_asciiLower {c : Nat} (h : isHexDigit c) : hexVal (asciiLower c) = hexVal c := by
  rw [asciiLower_eq_foldHex h, hexVal_foldHex]

theorem asciiLower_35 : asciiLower 35 = 35 := rfl

set_option maxRecDepth 1000000 in
theorem shortColorName_lower : ∀ p ∈ shortColorName, p.2.map asciiLower = p.2 := by
  decide

theorem name_lower {key : Int} {name : List Nat} (h : shortColorName.lookup key = some name) :
    name.map asciiLower = name :=
  shortColorName_lower _ (mem_of_lookup h)

theorem lowerCommutes_len4 (lc : Nat → Nat) {k : T} (hk : isHashKind k) (c0 c1 c2 c3 : Nat) :
    lowerCommutes lc k [c0, c1, c2, c3] := by
  unfold lowerCommutes
  simp only [List.map_cons, List.map_nil]
  rw [mangleColor_len4 lc hk, mangleColor_len4 lc hk]
  simp only [isHexDigit_asciiLower]
  by_cases hh : isHexDigit c1 ∧ isHexDigit c2 ∧ isHexDigit c3
  · obtain ⟨h1, h2, h3⟩ := hh
    simp only [h1, h2, h3, and_self, if_true, colorKey, hexVal_asciiLower]
    cases hl : shortColorName.lookup (colorKey c1 c1 c2 c2 c3 c3) with
    | none =>
      simp only [colorKey] at hl
      simp [hl]
    | some name =>
      simp only [colorKey] at hl
      simp [hl, name_lower hl]
  · simp [hh]

theorem lowerCommutes_len5 (lc : Nat → Nat) {k : T} (hk : isHashKind k)
    (c0 c1 c2 c3 c4 : Nat) : lowerCommutes lc k [c0, c1, c2, c3, c4] := by
  unfold lowerCommutes
  simp only [List.map_cons, List.map_nil]
  rw [mangleColor_len5 lc hk, mangleColor_len5 lc hk]
  simp only [isHexDigit_asciiLower]
  by_cases hh : isHexDigit c1 ∧ isHexDigit c2 ∧ isHexDigit c3 ∧ isHexDigit c4
  · obtain ⟨h1, h2, h3, h4⟩ := hh
    simp only [h1, h2, h3, h4, and_self, true_and, colorKey, hexVal_asciiLower,
      foldHex_asciiLower]
    by_cases ha : foldHex c4 = 102
    · simp only [ha, if_true]
      cases hl : shortColorName.lookup (colorKey c1 c1 c2 c2 c3 c3) with
      | none =>
        simp only [colorKey] at hl
        simp [hl, asciiLower_35, asciiLower_foldHex, h1, h2, h3]
      | some name =>
        simp only [colorKey] at hl
        simp [hl, name_lower hl]
    · simp [ha]
  · simp [hh]

theorem doubled_asciiLower {c1 c2 c3 c4 c5 c6 : Nat} (h1 : isHexDigit c1) (h2 : isHexDigit c2)
    (h3 : isHexDigit c3) (h4 : isHexDigit c4) (h5 : isHexDigit c5) (h6 : isHexDigit c6) :
    doubled (asciiLower c1) (asciiLower c2) (asciiLower c3) (asciiLower c4) (asciiLower c5)
      (asciiLower c6) ↔ doubled c1 c2 c3 c4 c5 c6 := by
  simp only [doubled, foldHex_asciiLower, h1, h2, h3, h4, h5, h6]

theorem lowerCommutes_len7 (lc : Nat → Nat) {k : T} (hk : isHashKind k)
    (c0 c1 c2 c3 c4 c5 c6 : Nat) : lowerCommutes lc k [c0, c1, c2, c3, c4, c5, c6] := by
  unfold lowerCommutes
  simp only [List.map_cons, List.map_nil]
  rw [mangleColor_len7 lc hk, mangleColor_len7 lc hk]
  simp only [isHexDigit_asciiLower]
  by_cases hh : isHexDigit c1 ∧ isHexDigit c2 ∧ isHexDigit c3 ∧ isHexDigit c4 ∧
      isHexDigit c5 ∧ isHexDigit c6
  · obtain ⟨h1, h2, h3, h4, h5, h6⟩ := hh
    simp only [h1, h2, h3, h4, h5, h6, and_self, if_true, colorKey, hexVal_asciiLower,
      foldHex_asciiLower, doubled_asciiLower]
    cases hl : shortColorName.lookup (colorKey c1 c2 c3 c4 c5 c6) with
    | none =>
      simp only [colorKey] at hl
      by_cases hd : doubled c1 c2 c3 c4 c5 c6
      · simp [hl, hd, asciiLower_35, asciiLower_foldHex, h1, h3, h5]
      · simp [hl, hd]
    | some name =>
      simp only [colorKey] at hl
      simp [hl, name_lower hl]
  · simp [hh]

theorem lowerCommutes_len9 (lc : Nat → Nat) {k : T} (hk : isHashKind k)
    (c0 c1 c2 c3 c4 c5 c6 c7 c8 : Nat) :
    lowerCommutes lc k [c0, c1, c2, c3, c4, c5, c6, c7, c8] := by
  unfold lowerCommutes
  simp only [List.map_cons, List.map_nil]
  rw [mangleColor_len9 lc hk, mangleColor_len9 lc hk]
  simp only [isHexDigit_asciiLower]
  by_cases hh : isHexDigit c1 ∧ isHexDigit c2 ∧ isHexDigit c3 ∧ isHexDigit c4 ∧
      isHexDigit c5 ∧ isHexDigit c6 ∧ isHexDigit c7 ∧ isHexDigit c8
  · obtain ⟨h1, h2, h3, h4, h5, h6, h7, h8⟩ := hh
    simp only [h1, h2, h3, h4, h5, h6, h7, h8, and_self, true_and, colorKey,
      hexVal_asciiLower, foldHex_asciiLower, doubled_asciiLower]
    by_cases he : foldHex c7 = foldHex c8
    · simp only [he, if_true]
      by_cases ha : foldHex c8 = 102
      · simp only [ha, if_true]
        cases hl : shortColorName.lookup (colorKey c1 c2 c3 c4 c5 c6) with
        | none =>
          simp only [colorKey] at hl
          by_cases hd : doubled c1 c2 c3 c4 c5 c6
          · simp [hl, hd, asciiLower_35, asciiLower_foldHex, h1, h3, h5]
          · simp [hl, hd, asciiLower_35, asciiLower_foldHex, h1, h2, h3, h4, h5, h6]
        | some name =>
          simp only [colorKey] at hl
          simp [hl, name_lower hl]
      · simp only [ha, if_false]
        by_cases hd : doubled c1 c2 c3 c4 c5 c6
        · simp [hd, asciiLower_35, asciiLower_foldHex, h1, h3, h5, h8]
        · simp [hd]
    · simp [he]
  · simp [hh]

/-- C18: `processDeclarations` touches only eligible single-token color declarations: the
pass returns a rule list of the same length in the same order; a rule that is not a
declaration of one of the 19 color properties with exactly one value token is unchanged;
when `MangleSyntax` is false nothing is changed; when it is true, the single token of an
eligible declaration becomes `mangleColor` of the original token and the key is kept. -/
theorem C18_process_declarations (lc : Nat → Nat) (MangleSyntax : Bool) (rules : List R) :
    ∃ out, processDeclarations lc MangleSyntax rules = some out ∧
      out.length = rules.length ∧
      (∀ (i : Nat) (before : R), rules[i]? = some before →
        ∃ after, out[i]? = some after ∧ ruleOutcome lc MangleSyntax before after) ∧
      colorProperties.length = 19 := by
  induction rules with
  | nil =>
    refine ⟨[], rfl, rfl, ?_, rfl⟩
    intro i before h
    simp at h
  | cons rule rules ih =>
    obtain ⟨out, hout, hlen, hall, _⟩ := ih
    obtain ⟨after, hafter, hrule⟩ := processRule_outcome lc MangleSyntax rule
    refine ⟨after :: out, ?_, by simp [hlen], ?_, rfl⟩
    · simp [processDeclarations, hafter, hout]
    · intro i before h
      cases i with
      | zero =>
        simp only [List.getElem?_cons_zero, Option.some.injEq] at h
        subst h
        exact ⟨after, by simp, hrule⟩
      | succ j =>
        simp only [List.getElem?_cons_succ] at h
        obtain ⟨after1, h1, h2⟩ := hall j before h
        exact ⟨after1, by simpa using h1, h2⟩

set_option maxRecDepth 1000000 in
/-- C19 (failing input): on the identifier `rebeccapurple` the code substitutes `#663399`,
which is not the shortest text: `mangleColor` itself rewrites the hash literal `#663399` to
`#639`.  It is the only entry of `shortColorHex` with that defect. -/
theorem C19_rebeccapurple_not_shortest :
    mangleColor id ⟨T.TIdent, bytes "rebeccapurple"⟩ = some ⟨T.TIdent, bytes "#663399"⟩ ∧
    mangleColor id ⟨T.THash, bytes "#663399"⟩ = some ⟨T.THash, bytes "#639"⟩ ∧
    (∀ p ∈ shortColorHex, p.1 ≠ bytes "rebeccapurple" →
      mangleColor id ⟨T.THash, p.2⟩ = some ⟨T.THash, p.2⟩) := by
  decide

/-- C20: `mangleColor` on hash literals commutes with ASCII lower-casing: for a hash token,
the result on the token with its text lower-cased is the result on the token with its text
lower-cased, kind and text.  So whether and how a hash literal is rewritten depends only on
its case-folded digits, and a result that differs from the input is entirely lower-case. -/
theorem C20_commutes_with_lower_casing (lc : Nat → Nat) (t : Token) (hk : isHashKind t.Kind) :
    ∃ u, mangleColor lc t = some u ∧
      mangleColor lc ⟨t.Kind, t.Text.map asciiLower⟩ = some ⟨u.Kind, u.Text.map asciiLower⟩ ∧
      (u ≠ t → u.Text.map asciiLower = u.Text) := by
  obtain ⟨k, text⟩ := t
  simp only at hk
  rcases hash_text_cases text with h | ⟨c0, c1, c2, c3, rfl⟩ | ⟨c0, c1, c2, c3, c4, rfl⟩ |
    ⟨c0, c1, c2, c3, c4, c5, c6, rfl⟩ | ⟨c0, c1, c2, c3, c4, c5, c6, c7, c8, rfl⟩
  · refine ⟨⟨k, text⟩, mangleColor_other_len lc hk text h.1 h.2.1 h.2.2.1 h.2.2.2, ?_,
      fun hne => absurd rfl hne⟩
    exact mangleColor_other_len lc hk _ (by simpa using h.1) (by simpa using h.2.1)
      (by simpa using h.2.2.1) (by simpa using h.2.2.2)
  · exact lowerCommutes_len4 lc hk c0 c1 c2 c3
  · exact lowerCommutes_len5 lc hk c0 c1 c2 c3 c4
  · exact lowerCommutes_len7 lc hk c0 c1 c2 c3 c4 c5 c6
  · exact lowerCommutes_len9 lc hk c0 c1 c2 c3 c4 c5 c6 c7 c8

/-- C20 at `#AABBCD`, which is unchanged, and whose lower-cased text is unchanged too. -/
theorem C20_commutes_with_lower_casing_witness :
    ∃ u, mangleColor id ⟨T.THash, bytes "#AABBCD"⟩ = some u ∧
      mangleColor id ⟨T.THash, (bytes "#AABBCD").map asciiLower⟩
        = some ⟨u.Kind, u.Text.map asciiLower⟩ ∧
      (u ≠ ⟨T.THash, bytes "#AABBCD"⟩ → u.Text.map asciiLower = u.Text) :=
  C20_commutes_with_lower_casing id ⟨T.THash, bytes "#AABBCD"⟩ (Or.inl rfl)

end CssDecls

namespace Compat

open CssDecls (D)

/-! ## Feature and prefix resolvers -/

theorem compareVersions_pos_iff (a b : v) : compareVersions a b > 0 ↔ versionLt b a := by
  unfold compareVersions versionLt
  split_ifs <;> omega

theorem compareVersions_self (a : v) : compareVersions a a = 0 := by
  unfold compareVersions; simp

theorem compareVersions_nonpos_iff (a b : v) : compareVersions a b ≤ 0 ↔ ¬ versionLt b a := by
  rw [← compareVersions_pos_iff]; omega

theorem unsupportedForConstraint_eq (feature : Nat) (engines : List (Engine × List versionRange))
    (acc : Nat) (c : Engine × v) :
    unsupportedForConstraint feature engines acc c
      = if lacksFeature engines c then acc ||| feature else acc := by
  unfold unsupportedForConstraint lacksFeature
  cases c.1.IsBrowser <;> cases List.lookup c.1 engines <;> simp

theorem foldl_unsupportedForConstraint (feature : Nat)
    (engines : List (Engine × List versionRange)) :
    ∀ (constraints : List (Engine × v)) (acc : Nat),
      constraints.foldl (unsupportedForConstraint feature engines) acc
        = if constraints.any (lacksFeature engines) then acc ||| feature else acc
  | [], acc => by simp
  | c :: cs, acc => by
    rw [List.foldl_cons, foldl_unsupportedForConstraint feature engines cs,
      unsupportedForConstraint_eq]
    by_cases h1 : lacksFeature engines c = true <;> by_cases h2 : cs.any (lacksFeature engines) = true
      <;> simp [h1, h2, Nat.lor_assoc]

theorem unsupportedForFeature_eq (constraints : List (Engine × v)) (acc : Nat)
    (entry : Nat × List (Engine × List versionRange)) :
    unsupportedForFeature constraints acc entry = acc ||| featureFlag constraints entry := by
  unfold unsupportedForFeature featureFlag
  rw [foldl_unsupportedForConstraint]
  split_ifs <;> simp

theorem foldl_unsupportedForFeature (constraints : List (Engine × v)) :
    ∀ (table : List (Nat × List (Engine × List versionRange))) (acc : Nat),
      table.foldl (unsupportedForFeature constraints) acc
        = acc ||| table.foldl (unsupportedForFeature constraints) 0
  | [], acc => by simp
  | entry :: table, acc => by
    rw [List.foldl_cons, List.foldl_cons, foldl_unsupportedForFeature constraints table
      (unsupportedForFeature constraints acc entry),
      foldl_unsupportedForFeature constraints table (unsupportedForFeature constraints 0 entry),
      unsupportedForFeature_eq, unsupportedForFeature_eq]
    simp [Nat.lor_assoc]

theorem orList_nil : orList [] = 0 := rfl

theorem orList_cons (x : Nat) (l : List Nat) : orList (x :: l) = x ||| orList l := rfl

theorem testBit_orList (i : Nat) : ∀ l : List Nat,
    (orList l).testBit i = l.any (fun x => x.testBit i)
  | [] => by simp [orList_nil]
  | x :: l => by simp [orList_cons, testBit_orList i l]

theorem foldl_unsupportedForFeature_eq (constraints : List (Engine × v)) :
    ∀ table : List (Nat × List (Engine × List versionRange)),
      table.foldl (unsupportedForFeature constraints) 0
        = orList (table.map (featureFlag constraints))
  | [] => rfl
  | entry :: table => by
    rw [List.foldl_cons, foldl_unsupportedForFeature, unsupportedForFeature_eq,
      foldl_unsupportedForFeature_eq constraints table]
    simp [orList_cons]

theorem UnsupportedCSSFeatures_eq (constraints : List (Engine × v)) :
    UnsupportedCSSFeatures constraints = orList (cssTable.map (featureFlag constraints)) :=
  foldl_unsupportedForFeature_eq constraints cssTable

theorem and_ne_zero_iff (x f : Nat) : x &&& f ≠ 0 ↔ ∃ i, x.testBit i = true ∧ f.testBit i = true := by
  constructor
  · intro h
    obtain ⟨i, hi⟩ := Nat.ne_zero_implies_bit_true h
    rw [Nat.testBit_and, Bool.and_eq_true] at hi
    exact ⟨i, hi⟩
  · rintro ⟨i, h1, h2⟩ h0
    have : (x &&& f).testBit i = true := by rw [Nat.testBit_and, h1, h2]; rfl
    rw [h0] at this
    simp at this

theorem Has_iff (x f : Nat) : Has x f = true ↔ ∃ i, x.testBit i = true ∧ f.testBit i = true := by
  unfold Has
  rw [bne_iff_ne]
  exact and_ne_zero_iff x f

/-- Facts about `cssTable`: every key is a single bit other than `InlineStyle`, two entries
with a common bit are the same entry, and every engine has exactly one range. -/
theorem cssTable_facts :
    ∀ e1 ∈ cssTable, e1.1 ≠ InlineStyle ∧ e1.1 ≠ 0 ∧ e1.1 &&& 125 = e1.1 ∧
      (∀ e2 ∈ cssTable, e1.1 &&& e2.1 ≠ 0 → e1 = e2) ∧
      (∀ er ∈ e1.2, er.2.length = 1) := by
  decide

theorem featureFlag_testBit {constraints : List (Engine × v)}
    {entry : Nat × List (Engine × List versionRange)} {i : Nat}
    (h : (featureFlag constraints entry).testBit i = true) :
    constraints.any (lacksFeature entry.2) = true ∧ entry.1.testBit i = true := by
  unfold featureFlag at h
  split_ifs at h with h1 h2
  · simp at h
  · exact ⟨h2, h⟩
  · simp at h

theorem Has_UnsupportedCSSFeatures (constraints : List (Engine × v))
    (entry : Nat × List (Engine × List versionRange)) (hmem : entry ∈ cssTable) :
    Has (UnsupportedCSSFeatures constraints) entry.1 = true
      ↔ constraints.any (lacksFeature entry.2) = true := by
  obtain ⟨hne, hnz, _, huniq, _⟩ := cssTable_facts entry hmem
  rw [Has_iff, UnsupportedCSSFeatures_eq]
  constructor
  · rintro ⟨i, h1, h2⟩
    rw [testBit_orList, List.any_eq_true] at h1
    obtain ⟨x, hx, hxi⟩ := h1
    rw [List.mem_map] at hx
    obtain ⟨e2, he2, rfl⟩ := hx
    obtain ⟨hany, hbit⟩ := featureFlag_testBit hxi
    have : entry.1 &&& e2.1 ≠ 0 := (and_ne_zero_iff _ _).2 ⟨i, h2, hbit⟩
    have := huniq e2 he2 this
    subst this
    exact hany
  · intro hany
    obtain ⟨i, hi⟩ := Nat.ne_zero_implies_bit_true hnz
    refine ⟨i, ?_, hi⟩
    rw [testBit_orList, List.any_eq_true]
    refine ⟨featureFlag constraints entry, List.mem_map_of_mem _ hmem, ?_⟩
    unfold featureFlag
    rw [if_neg hne, if_pos hany]
    exact hi

theorem lacksFeature_iff (entry : Nat × List (Engine × List versionRange))
    (hmem : entry ∈ cssTable) (e : Engine) (ver : v) :
    lacksFeature entry.2 (e, ver) = true ↔
      e.IsBrowser = true ∧ (entry.2.lookup e = none ∨
        ∃ r, entry.2.lookup e = some [r] ∧ versionLt ver r.start) := by
  obtain ⟨_, _, _, _, hone⟩ := cssTable_facts entry hmem
  unfold lacksFeature
  simp only [Bool.and_eq_true]
  apply and_congr_right
  intro _
  cases hl : List.lookup e entry.2 with
  | none => simp
  | some rs =>
    have h1 := hone _ (CssDecls.mem_of_lookup hl)
    simp only at h1
    match rs, h1 with
    | [r], _ =>
      simp only [isVersionSupported, Bool.not_eq_true', decide_eq_false_iff_not,
        ← compareVersions_pos_iff, false_or, Option.some.injEq, List.cons.injEq, and_true,
        exists_eq_left']
      constructor
      · intro h; right; omega
      · rintro (h | h)
        · exact absurd h (by simp)
        · omega

theorem orList_append : ∀ a b : List Nat, orList (a ++ b) = orList a ||| orList b
  | [], b => by simp [orList_nil]
  | x :: a, b => by simp [orList_cons, orList_append a b, Nat.or_assoc]

theorem or_or_or_comm (a b c d : Nat) : (a ||| b) ||| (c ||| d) = (a ||| c) ||| (b ||| d) := by
  apply Nat.eq_of_testBit_eq
  intro i
  simp only [Nat.testBit_or]
  cases a.testBit i <;> cases b.testBit i <;> cases c.testBit i <;> cases d.testBit i <;> rfl

theorem orList_map_or {α : Type} (g h : α → Nat) : ∀ l : List α,
    orList (l.map (fun x => g x ||| h x)) = orList (l.map g) ||| orList (l.map h)
  | [] => by simp [orList_nil]
  | x :: l => by
    simp only [List.map_cons, orList_cons, orList_map_or g h l]
    exact or_or_or_comm _ _ _ _

theorem and_or_distrib_right (a b m : Nat) : (a ||| b) &&& m = (a &&& m) ||| (b &&& m) := by
  rw [Nat.and_comm, Nat.and_or_distrib_left, Nat.and_comm m a, Nat.and_comm m b]

theorem orList_and_mask (m : Nat) : ∀ l : List Nat, (∀ x ∈ l, x &&& m = x) →
    orList l &&& m = orList l
  | [], _ => by simp [orList_nil]
  | x :: l, h => by
    rw [orList_cons, and_or_distrib_right, h x (List.mem_cons_self _ _),
      orList_and_mask m l (fun y hy => h y (List.mem_cons_of_mem _ hy))]

theorem featureFlag_append (c1 c2 : List (Engine × v))
    (entry : Nat × List (Engine × List versionRange)) :
    featureFlag (c1 ++ c2) entry = featureFlag c1 entry ||| featureFlag c2 entry := by
  unfold featureFlag
  rw [List.any_append]
  by_cases h : entry.1 = InlineStyle
  · simp [h]
  · cases List.any c1 (lacksFeature entry.2) <;> cases List.any c2 (lacksFeature entry.2) <;>
      simp [h]

theorem any_perm {α : Type} {l1 l2 : List α} (h : l1.Perm l2) (p : α → Bool) :
    l1.any p = l2.any p := by
  rw [Bool.eq_iff_iff, List.any_eq_true, List.any_eq_true]
  constructor
  · rintro ⟨x, hx, hp⟩; exact ⟨x, h.mem_iff.1 hx, hp⟩
  · rintro ⟨x, hx, hp⟩; exact ⟨x, h.mem_iff.2 hx, hp⟩

theorem UnsupportedCSSFeatures_append (c1 c2 : List (Engine × v)) :
    UnsupportedCSSFeatures (c1 ++ c2)
      = UnsupportedCSSFeatures c1 ||| UnsupportedCSSFeatures c2 := by
  simp only [UnsupportedCSSFeatures_eq]
  rw [← orList_map_or]
  congr 1
  apply List.map_congr_left
  intro entry _
  exact featureFlag_append c1 c2 entry

theorem lacksFeature_browser {engines : List (Engine × List versionRange)}
    {constraint : Engine × v} (h : lacksFeature engines constraint = true) :
    constraint.1.IsBrowser = true := by
  unfold lacksFeature at h
  rw [Bool.and_eq_true] at h
  exact h.1

theorem featureFlag_filter (c : List (Engine × v))
    (entry : Nat × List (Engine × List versionRange)) :
    featureFlag (c.filter (fun constraint => constraint.1.IsBrowser)) entry
      = featureFlag c entry := by
  unfold featureFlag
  have : (c.filter (fun constraint => constraint.1.IsBrowser)).any (lacksFeature entry.2)
      = c.any (lacksFeature entry.2) := by
    rw [List.any_filter]
    congr 1
    funext constraint
    unfold lacksFeature
    cases constraint.1.IsBrowser <;> simp
  rw [this]

theorem UnsupportedCSSFeatures_filter (c : List (Engine × v)) :
    UnsupportedCSSFeatures (c.filter (fun constraint => constraint.1.IsBrowser))
      = UnsupportedCSSFeatures c := by
  simp only [UnsupportedCSSFeatures_eq]
  congr 1
  apply List.map_congr_left
  intro entry _
  exact featureFlag_filter c entry

theorem UnsupportedCSSFeatures_mask (c : List (Engine × v)) :
    UnsupportedCSSFeatures c &&& 125 = UnsupportedCSSFeatures c := by
  rw [UnsupportedCSSFeatures_eq]
  apply orList_and_mask
  intro x hx
  rw [List.mem_map] at hx
  obtain ⟨entry, hmem, rfl⟩ := hx
  obtain ⟨_, _, hm, _, _⟩ := cssTable_facts entry hmem
  unfold featureFlag
  split_ifs <;> simp [hm]

theorem prefixesForItem_eq (constraint : Engine × v) (acc : Nat) (item : prefixData) :
    prefixesForItem constraint acc item
      = if needsPrefix constraint item then acc ||| item.pfx else acc := by
  unfold prefixesForItem needsPrefix
  simp only [compareVersions_pos_iff, Bool.and_eq_true, Bool.or_eq_true, decide_eq_true_eq]

theorem foldl_prefixesForItem (constraint : Engine × v) :
    ∀ (items : List prefixData) (acc : Nat),
      items.foldl (prefixesForItem constraint) acc
        = acc ||| orList ((items.filter (needsPrefix constraint)).map (fun item => item.pfx))
  | [], acc => by simp [orList_nil]
  | item :: items, acc => by
    rw [List.foldl_cons, foldl_prefixesForItem constraint items, prefixesForItem_eq]
    by_cases h : needsPrefix constraint item = true
    · simp [h, List.filter_cons, orList_cons, Nat.or_assoc]
    · simp [h, List.filter_cons]

theorem foldl_prefixesForConstraint (items : List prefixData) :
    ∀ (constraints : List (Engine × v)) (acc : Nat),
      constraints.foldl (prefixesForConstraint items) acc
        = acc ||| neededPrefixes constraints items
  | [], acc => by simp [neededPrefixes, orList_nil]
  | constraint :: constraints, acc => by
    rw [List.foldl_cons, foldl_prefixesForConstraint items constraints]
    unfold prefixesForConstraint neededPrefixes
    by_cases h : constraint.1.IsBrowser = true
    · simp [h, List.filter_cons, orList_cons, foldl_prefixesForItem, Nat.or_assoc]
    · simp [h, List.filter_cons]

theorem mapSet_fresh : ∀ (entries : List (D × Nat)) (key : D) (value : Nat),
    key ∉ entries.map Prod.fst → mapSet entries key value = entries ++ [(key, value)]
  | [], _, _, _ => rfl
  | (k, x) :: rest, key, value, h => by
    simp only [List.map_cons, List.mem_cons, not_or] at h
    simp only [mapSet, if_neg (Ne.symm h.1), mapSet_fresh rest key value h.2, List.cons_append]

theorem prefixesForProperty_eq (constraints : List (Engine × v)) (entries : List (D × Nat))
    (entry : D × List prefixData) (h : entry.1 ∉ entries.map Prod.fst) :
    prefixesForProperty constraints entries entry
      = entries ++ (prefixEntry constraints entry).toList := by
  unfold prefixesForProperty prefixEntry
  simp only [foldl_prefixesForConstraint, NoPrefix, Nat.zero_or, ne_eq]
  by_cases h0 : neededPrefixes constraints entry.2 = 0
  · simp [h0]
  · simp [h0, mapSet_fresh entries entry.1 _ h]

theorem mem_fst_filterMap_prefixEntry (constraints : List (Engine × v)) (p : D) :
    ∀ table : List (D × List prefixData),
      p ∈ (table.filterMap (prefixEntry constraints)).map Prod.fst → p ∈ table.map Prod.fst
  | [], h => by simp at h
  | entry :: table, h => by
    simp only [List.filterMap_cons] at h
    unfold prefixEntry at h
    split_ifs at h with h0
    · exact List.mem_cons_of_mem _ (mem_fst_filterMap_prefixEntry constraints p table h)
    · simp only [List.map_cons, List.mem_cons] at h
      rcases h with h | h
      · simp [h]
      · exact List.mem_cons_of_mem _ (mem_fst_filterMap_prefixEntry constraints p table h)

theorem foldl_prefixesForProperty (constraints : List (Engine × v)) :
    ∀ (table : List (D × List prefixData)) (entries : List (D × Nat)),
      (table.map Prod.fst).Nodup → (∀ p ∈ table.map Prod.fst, p ∉ entries.map Prod.fst) →
      table.foldl (prefixesForProperty constraints) entries
        = entries ++ table.filterMap (prefixEntry constraints)
  | [], entries, _, _ => by simp
  | entry :: table, entries, hnd, hdis => by
    simp only [List.map_cons, List.nodup_cons] at hnd
    have hfresh : entry.1 ∉ entries.map Prod.fst := hdis entry.1 (by simp)
    rw [List.foldl_cons, prefixesForProperty_eq constraints entries entry hfresh,
      foldl_prefixesForProperty constraints table _ hnd.2]
    · rw [List.append_assoc]
      congr 1
      rw [List.filterMap_cons]
      cases prefixEntry constraints entry <;> rfl
    · intro p hp hmem
      rw [List.map_append, List.mem_append] at hmem
      rcases hmem with hmem | hmem
      · exact hdis p (List.mem_cons_of_mem _ hp) hmem
      · unfold prefixEntry at hmem
        split_ifs at hmem
        · simp at hmem
        · simp only [Option.toList_some, List.map_cons, List.map_nil, List.mem_singleton] at hmem
          subst hmem
          exact hnd.1 hp

theorem cssPrefixTable_nodup : (cssPrefixTable.map Prod.fst).Nodup := by
  decide

theorem CSSPrefixData_eq (constraints : List (Engine × v)) :
    CSSPrefixData constraints = cssPrefixTable.filterMap (prefixEntry constraints) := by
  unfold CSSPrefixData
  rw [foldl_prefixesForProperty constraints cssPrefixTable [] cssPrefixTable_nodup (by simp)]
  simp

theorem lookup_filterMap_prefixEntry (constraints : List (Engine × v)) (p : D) :
    ∀ table : List (D × List prefixData), (table.map Prod.fst).Nodup →
      (table.filterMap (prefixEntry constraints)).lookup p =
        match table.lookup p with
        | none => none
        | some items =>
          if neededPrefixes constraints items = 0 then none
          else some (neededPrefixes constraints items)
  | [], _ => rfl
  | (key, items) :: table, hnd => by
    simp only [List.map_cons, List.nodup_cons] at hnd
    have ih := lookup_filterMap_prefixEntry constraints p table hnd.2
    by_cases hp : p = key
    · subst hp
      have hnone : (table.filterMap (prefixEntry constraints)).lookup p = none := by
        rw [List.lookup_eq_none_iff]
        intro q hq
        have hq1 : q.1 ∈ (table.filterMap (prefixEntry constraints)).map Prod.fst :=
          List.mem_map_of_mem _ hq
        have := mem_fst_filterMap_prefixEntry constraints q.1 table hq1
        simp only [bne_iff_ne, ne_eq]
        intro h
        exact hnd.1 (h ▸ this)
      simp only [List.filterMap_cons, prefixEntry, List.lookup_cons, beq_self_eq_true]
      split_ifs with h0
      · exact hnone
      · simp [List.lookup_cons]
    · have hb : (p == key) = false := by simpa using hp
      simp only [List.filterMap_cons, prefixEntry, List.lookup_cons, hb]
      split_ifs with h0
      · exact ih
      · simp only [List.lookup_cons, hb]
        exact ih

theorem lookup_CSSPrefixData (constraints : List (Engine × v)) (p : D) :
    (CSSPrefixData constraints).lookup p =
      match cssPrefixTable.lookup p with
      | none => none
      | some items =>
        if neededPrefixes constraints items = 0 then none
        else some (neededPrefixes constraints items) := by
  rw [CSSPrefixData_eq]
  exact lookup_filterMap_prefixEntry constraints p cssPrefixTable cssPrefixTable_nodup

theorem mem_CSSPrefixData {constraints : List (Engine × v)} {entry : D × Nat}
    (h : entry ∈ CSSPrefixData constraints) :
    ∃ items, (entry.1, items) ∈ cssPrefixTable ∧ entry.2 = neededPrefixes constraints items ∧
      entry.2 ≠ 0 := by
  rw [CSSPrefixData_eq, List.mem_filterMap] at h
  obtain ⟨⟨key, items⟩, hmem, he⟩ := h
  unfold prefixEntry at he
  split_ifs at he with h0
  simp only [Option.some.injEq] at he
  subst he
  exact ⟨items, hmem, rfl, h0⟩

/-- Every prefix in `cssPrefixTable` is one of the four prefix bits and is not zero. -/
theorem cssPrefixTable_facts :
    ∀ entry ∈ cssPrefixTable, ∀ item ∈ entry.2, item.pfx &&& 15 = item.pfx ∧ item.pfx ≠ 0 := by
  decide

theorem neededPrefixes_mask {constraints : List (Engine × v)} {items : List prefixData}
    (h : ∀ item ∈ items, item.pfx &&& 15 = item.pfx) :
    neededPrefixes constraints items &&& 15 = neededPrefixes constraints items := by
  unfold neededPrefixes
  apply orList_and_mask
  intro x hx
  rw [List.mem_map] at hx
  obtain ⟨constraint, _, rfl⟩ := hx
  apply orList_and_mask
  intro y hy
  rw [List.mem_map] at hy
  obtain ⟨item, hitem, rfl⟩ := hy
  exact h item (List.mem_of_mem_filter hitem)

theorem neededPrefixes_filter (constraints : List (Engine × v)) (items : List prefixData) :
    neededPrefixes (constraints.filter (fun constraint => constraint.1.IsBrowser)) items
      = neededPrefixes constraints items := by
  unfold neededPrefixes
  rw [List.filter_filter]
  simp

theorem CSSPrefixData_filter (constraints : List (Engine × v)) :
    CSSPrefixData (constraints.filter (fun constraint => constraint.1.IsBrowser))
      = CSSPrefixData constraints := by
  simp only [CSSPrefixData_eq]
  congr 1
  funext entry
  unfold prefixEntry
  rw [neededPrefixes_filter]

theorem filter_browser_eq_nil {constraints : List (Engine × v)}
    (h : ∀ constraint ∈ constraints, constraint.1.IsBrowser = false) :
    constraints.filter (fun constraint => constraint.1.IsBrowser) = [] := by
  rw [List.filter_eq_nil_iff]
  intro constraint hc
  simp [h constraint hc]

theorem mem_orList_and {x : Nat} : ∀ {l : List Nat}, x ∈ l → orList l &&& x = x
  | y :: l, h => by
    rw [orList_cons, and_or_distrib_right]
    rcases List.mem_cons.1 h with rfl | h
    · apply Nat.eq_of_testBit_eq
      intro i
      simp only [Nat.testBit_or, Nat.testBit_and, Nat.and_self]
      cases x.testBit i <;> simp
    · rw [mem_orList_and h]
      apply Nat.eq_of_testBit_eq
      intro i
      simp only [Nat.testBit_or, Nat.testBit_and]
      cases x.testBit i <;> simp

theorem neededPrefixes_singleton {e : Engine} (he : e.IsBrowser = true) (ver : v)
    (items : List prefixData) :
    neededPrefixes [(e, ver)] items
      = orList ((items.filter (needsPrefix (e, ver))).map (fun item => item.pfx)) := by
  unfold neededPrefixes
  simp [List.filter_cons, he, orList_cons, orList_nil]

theorem versionLt_irrefl (a : v) : ¬ versionLt a a := by
  unfold versionLt; omega

theorem xor_255 {mask : Nat} (h : mask < 256) : mask ^^^ 0xFF = 255 - mask := by
  apply Nat.eq_of_testBit_eq
  intro i
  have h1 : (255 : Nat) = 2 ^ 8 - 1 := rfl
  have h2 : 255 - mask = 2 ^ 8 - (mask + 1) := by omega
  rw [Nat.testBit_xor, h2, Nat.testBit_two_pow_sub_succ (by simpa using h),
    show (0xFF : Nat) = 2 ^ 8 - 1 from rfl, Nat.testBit_two_pow_sub_one]
  by_cases hi : i < 8
  · simp [hi]
  · have : mask.testBit i = false :=
      Nat.testBit_lt_two_pow (Nat.lt_of_lt_of_le h (Nat.pow_le_pow_right (show 2 > 0 by decide)
        (Nat.le_of_not_lt hi)))
    simp [hi, this]

theorem testBit_of_lt_256 {x i : Nat} (h : x < 256) (hi : ¬ i < 8) : x.testBit i = false :=
  Nat.testBit_lt_two_pow (Nat.lt_of_lt_of_le h (Nat.pow_le_pow_right (show 2 > 0 by decide)
    (Nat.le_of_not_lt hi)))

theorem testBit_ApplyOverrides {base overrides mask : Nat} (hb : base < 256)
    (ho : overrides < 256) (i : Nat) :
    (ApplyOverrides base overrides mask).testBit i
      = if mask.testBit i then overrides.testBit i else base.testBit i := by
  unfold ApplyOverrides
  rw [Nat.testBit_or, Nat.testBit_and, Nat.testBit_and, Nat.testBit_xor,
    show (0xFF : Nat) = 2 ^ 8 - 1 from rfl, Nat.testBit_two_pow_sub_one]
  by_cases hi : i < 8
  · cases base.testBit i <;> cases overrides.testBit i <;> cases mask.testBit i <;> simp [hi]
  · rw [testBit_of_lt_256 hb hi, testBit_of_lt_256 ho hi]
    cases mask.testBit i <;> simp

/-! ## The claims on the compatibility tables -/

/-- C11: `UnsupportedCSSFeatures` returns exactly the features some target lacks: for a
constraint set `c` and a feature `f` that is a key of `cssTable`, with engine map `engines`,
`f` is set in `UnsupportedCSSFeatures c` if and only if `c` contains a browser engine `e`
such that `engines` has no entry for `e` or the version of `e` in `c` is below the start of
the range of `e`.  `{Chrome: 30.0.0}` yields `RebeccaPurple` and `HexRGBA`, and a constraint
on a browser other than Chrome yields `Nesting`. -/
theorem C11_unsupported_features_exact (c : List (Engine × v)) (f : Nat)
    (engines : List (Engine × List versionRange)) (hmem : (f, engines) ∈ cssTable) :
    (Has (UnsupportedCSSFeatures c) f = true ↔
      ∃ e ver, (e, ver) ∈ c ∧ e.IsBrowser = true ∧
        (engines.lookup e = none ∨ ∃ r, engines.lookup e = some [r] ∧ versionLt ver r.start)) ∧
    Has (UnsupportedCSSFeatures [(Engine.Chrome, ⟨30, 0, 0⟩)]) RebeccaPurple = true ∧
    Has (UnsupportedCSSFeatures [(Engine.Chrome, ⟨30, 0, 0⟩)]) HexRGBA = true ∧
    (∀ e ver, (e, ver) ∈ c → e.IsBrowser = true → e ≠ Engine.Chrome →
      Has (UnsupportedCSSFeatures c) Nesting = true) := by
  refine ⟨?_, by decide, by decide, ?_⟩
  · rw [Has_UnsupportedCSSFeatures c (f, engines) hmem, List.any_eq_true]
    constructor
    · rintro ⟨⟨e, ver⟩, hc, hl⟩
      exact ⟨e, ver, hc, (lacksFeature_iff (f, engines) hmem e ver).1 hl⟩
    · rintro ⟨e, ver, hc, hl⟩
      exact ⟨(e, ver), hc, (lacksFeature_iff (f, engines) hmem e ver).2 hl⟩
  · intro e ver hc hb hne
    have hn : (Nesting, [(Engine.Chrome, [(⟨⟨112, 0, 0⟩⟩ : versionRange)])]) ∈ cssTable := by
      decide
    rw [Has_UnsupportedCSSFeatures c _ hn, List.any_eq_true]
    refine ⟨(e, ver), hc, ?_⟩
    cases e <;> first | exact absurd rfl hne | rfl | exact absurd hb (by decide)

/-- C11 at `{Firefox: 48.0.0}` and `HexRGBA`, which Firefox supports from 49.0.0. -/
theorem C11_unsupported_features_exact_witness :
    Has (UnsupportedCSSFeatures [(Engine.Firefox, ⟨48, 0, 0⟩)]) HexRGBA = true ↔
      ∃ e ver, (e, ver) ∈ [(Engine.Firefox, (⟨48, 0, 0⟩ : v))] ∧ e.IsBrowser = true ∧
        (List.lookup e [
            (Engine.Chrome, [(⟨⟨62, 0, 0⟩⟩ : versionRange)]),
            (Engine.Edge, [⟨⟨79, 0, 0⟩⟩]),
            (Engine.Firefox, [⟨⟨49, 0, 0⟩⟩]),
            (Engine.IOS, [⟨⟨9, 3, 0⟩⟩]),
            (Engine.Opera, [⟨⟨49, 0, 0⟩⟩]),
            (Engine.Safari, [⟨⟨9, 1, 0⟩⟩])] = none ∨
          ∃ r, List.lookup e [
            (Engine.Chrome, [(⟨⟨62, 0, 0⟩⟩ : versionRange)]),
            (Engine.Edge, [⟨⟨79, 0, 0⟩⟩]),
            (Engine.Firefox, [⟨⟨49, 0, 0⟩⟩]),
            (Engine.IOS, [⟨⟨9, 3, 0⟩⟩]),
            (Engine.Opera, [⟨⟨49, 0, 0⟩⟩]),
            (Engine.Safari, [⟨⟨9, 1, 0⟩⟩])] = some [r] ∧ versionLt ver r.start) :=
  (C11_unsupported_features_exact [(Engine.Firefox, ⟨48, 0, 0⟩)] HexRGBA _ (by decide)).1

/-- C12: weakest-link accumulation: the result on the union of two constraint sets is the
bitwise OR of the results on each; hence adding a target never removes a flag, and the
result does not depend on the order in which the constraints are visited. -/
theorem C12_weakest_link (c1 c2 : List (Engine × v)) :
    UnsupportedCSSFeatures (c1 ++ c2)
      = UnsupportedCSSFeatures c1 ||| UnsupportedCSSFeatures c2 ∧
    (∀ (target : Engine × v) (i : Nat), (UnsupportedCSSFeatures c1).testBit i = true →
      (UnsupportedCSSFeatures (target :: c1)).testBit i = true) ∧
    (∀ c : List (Engine × v), c.Perm c1 →
      UnsupportedCSSFeatures c = UnsupportedCSSFeatures c1) := by
  refine ⟨UnsupportedCSSFeatures_append c1 c2, ?_, ?_⟩
  · intro target i h
    have := UnsupportedCSSFeatures_append [target] c1
    rw [List.singleton_append] at this
    rw [this, Nat.testBit_or, h, Bool.or_true]
  · intro c hperm
    simp only [UnsupportedCSSFeatures_eq]
    congr 1
    apply List.map_congr_left
    intro entry _
    unfold featureFlag
    rw [any_perm hperm]

/-- C13: non-browser engines never affect either resolver: both give the same result on a
constraint set and on the set with every non-browser entry removed; in particular an empty
or all-non-browser constraint set gives the empty feature set and the empty (nil) prefix
map. -/
theorem C13_non_browser_ignored (c : List (Engine × v)) :
    UnsupportedCSSFeatures c
      = UnsupportedCSSFeatures (c.filter (fun constraint => constraint.1.IsBrowser)) ∧
    CSSPrefixData c = CSSPrefixData (c.filter (fun constraint => constraint.1.IsBrowser)) ∧
    UnsupportedCSSFeatures [] = 0 ∧ CSSPrefixData [] = [] ∧
    ((∀ constraint ∈ c, constraint.1.IsBrowser = false) →
      UnsupportedCSSFeatures c = 0 ∧ CSSPrefixData c = []) := by
  refine ⟨(UnsupportedCSSFeatures_filter c).symm, (CSSPrefixData_filter c).symm, rfl, rfl, ?_⟩
  intro h
  rw [← UnsupportedCSSFeatures_filter c, ← CSSPrefixData_filter c, filter_browser_eq_nil h]
  exact ⟨rfl, rfl⟩

/-- C14: the bits set in `UnsupportedCSSFeatures c` are among `HexRGBA`, `InsetProperty`,
`IsPseudoClass`, `Modern_RGB_HSL`, `Nesting` and `RebeccaPurple`: the `InlineStyle` bit is
never set and no bit outside the seven declared flags is set.  Every value in
`CSSPrefixData c` uses only the four bits `WebkitPrefix`, `MozPrefix`, `MsPrefix`,
`OPrefix`. -/
theorem C14_declared_bits_only (c : List (Engine × v)) :
    UnsupportedCSSFeatures c &&&
        (HexRGBA ||| InsetProperty ||| IsPseudoClass ||| Modern_RGB_HSL ||| Nesting |||
          RebeccaPurple) = UnsupportedCSSFeatures c ∧
    Has (UnsupportedCSSFeatures c) InlineStyle = false ∧
    UnsupportedCSSFeatures c < 128 ∧
    (∀ entry ∈ CSSPrefixData c,
      entry.2 &&& (WebkitPrefix ||| MozPrefix ||| MsPrefix ||| OPrefix) = entry.2) := by
  have hm := UnsupportedCSSFeatures_mask c
  refine ⟨hm, ?_, ?_, ?_⟩
  · unfold Has
    have h0 : 125 &&& InlineStyle = 0 := by decide
    rw [← hm, Nat.and_assoc, h0]
    simp
  · rw [← hm]
    exact Nat.lt_of_le_of_lt Nat.and_le_right (by decide)
  · intro entry hentry
    obtain ⟨items, hmem, hval, _⟩ := mem_CSSPrefixData hentry
    rw [hval]
    exact neededPrefixes_mask (fun item hitem => (cssPrefixTable_facts _ hmem item hitem).1)

/-- C15: `CSSPrefixData` computes the per-property OR and omits empty sets: with `A(p)` the
bitwise OR of the prefix of every item of `cssPrefixTable[p]` whose engine is a browser
engine of `c` and that has no unprefixed version or one above the version in `c`, `p` is a
key of the result if and only if `A(p)` is not zero, and the value stored is `A(p)`; no
stored value is `NoPrefix` and every key is a key of `cssPrefixTable`.  `{Safari: 10.0.0}`
maps `DBackdropFilter` to `WebkitPrefix`. -/
theorem C15_prefix_or_per_property (c : List (Engine × v)) (p : D) :
    (CSSPrefixData c).lookup p =
      (if neededPrefixes c ((cssPrefixTable.lookup p).getD []) = 0 then none
        else some (neededPrefixes c ((cssPrefixTable.lookup p).getD []))) ∧
    (∀ entry ∈ CSSPrefixData c,
      entry.2 ≠ NoPrefix ∧ (cssPrefixTable.lookup entry.1).isSome = true) ∧
    (CSSPrefixData [(Engine.Safari, ⟨10, 0, 0⟩)]).lookup D.DBackdropFilter
      = some WebkitPrefix := by
  refine ⟨?_, ?_, by decide⟩
  · rw [lookup_CSSPrefixData]
    cases hl : List.lookup p cssPrefixTable with
    | none =>
      have : neededPrefixes c [] = 0 := by
        unfold neededPrefixes
        induction c.filter (fun constraint => constraint.1.IsBrowser) with
        | nil => rfl
        | cons x l ih => simpa [orList_cons, orList_nil] using ih
      simp [this]
    | some items => simp
  · intro entry hentry
    obtain ⟨items, hmem, _, hne⟩ := mem_CSSPrefixData hentry
    refine ⟨hne, ?_⟩
    rw [List.lookup_isSome_iff]
    exact ⟨(entry.1, items), hmem, by simp⟩

/-- C16 (as stated, refuted): the only item of `DBackdropFilter` for Safari has the zero
version as `withoutPrefix`, and yet `{Safari: 0.0.0}` has an entry for the property. -/
theorem C16_zero_version_keeps_prefix :
    Engine.Safari.IsBrowser = true ∧
    (∀ item ∈ (cssPrefixTable.lookup D.DBackdropFilter).getD [],
      item.engine = Engine.Safari → item.withoutPrefix = ⟨0, 0, 0⟩) ∧
    (CSSPrefixData [(Engine.Safari, ⟨0, 0, 0⟩)]).lookup D.DBackdropFilter
      = some WebkitPrefix := by
  decide

/-- C16 (amended): the prefix cutoff is strict: for a browser engine `e`, a version `ver`
other than the zero version and a property `p` such that every item of `cssPrefixTable[p]`
for `e` has `withoutPrefix` equal to `ver`, `CSSPrefixData {e: ver}` has no entry for `p`,
while for every version strictly below `ver` the prefix bit of each such item is present.
`{Safari: 15.4.0}` gives no entry for `DAppearance`, `DMaskImage` or `DPrintColorAdjust`. -/
theorem C16_strict_cutoff (e : Engine) (ver : v) (p : D) (he : e.IsBrowser = true)
    (hver : ver ≠ ⟨0, 0, 0⟩)
    (hall : ∀ item ∈ (cssPrefixTable.lookup p).getD [], item.engine = e →
      item.withoutPrefix = ver) :
    (CSSPrefixData [(e, ver)]).lookup p = none ∧
    (∀ below, versionLt below ver → ∀ item ∈ (cssPrefixTable.lookup p).getD [],
      item.engine = e →
      ∃ x, (CSSPrefixData [(e, below)]).lookup p = some x ∧ x &&& item.pfx = item.pfx) ∧
    (CSSPrefixData [(Engine.Safari, ⟨15, 4, 0⟩)]).lookup D.DAppearance = none ∧
    (CSSPrefixData [(Engine.Safari, ⟨15, 4, 0⟩)]).lookup D.DMaskImage = none ∧
    (CSSPrefixData [(Engine.Safari, ⟨15, 4, 0⟩)]).lookup D.DPrintColorAdjust = none := by
  refine ⟨?_, ?_, by decide, by decide, by decide⟩
  · rw [lookup_CSSPrefixData]
    cases hl : List.lookup p cssPrefixTable with
    | none => rfl
    | some items =>
      rw [hl] at hall
      simp only [Option.getD_some] at hall
      have hnil : items.filter (needsPrefix (e, ver)) = [] := by
        rw [List.filter_eq_nil_iff]
        intro item hitem hneeds
        unfold needsPrefix at hneeds
        simp only [Bool.and_eq_true, Bool.or_eq_true, decide_eq_true_eq] at hneeds
        have hw := hall item hitem hneeds.1
        rcases hneeds.2 with h | h
        · exact hver (hw ▸ h)
        · rw [hw] at h
          exact versionLt_irrefl ver h
      have : neededPrefixes [(e, ver)] items = 0 := by
        rw [neededPrefixes_singleton he, hnil]; rfl
      simp [this]
  · intro below hbelow item hitem hengine
    rw [lookup_CSSPrefixData]
    cases hl : List.lookup p cssPrefixTable with
    | none => rw [hl] at hitem; simp at hitem
    | some items =>
      rw [hl] at hitem hall
      simp only [Option.getD_some] at hitem hall
      have hneeds : needsPrefix (e, below) item = true := by
        unfold needsPrefix
        simp only [Bool.and_eq_true, Bool.or_eq_true, decide_eq_true_eq]
        exact ⟨hengine, Or.inr (by rw [hall item hitem hengine]; exact hbelow)⟩
      have hmem : item.pfx ∈ (items.filter (needsPrefix (e, below))).map (fun item => item.pfx) :=
        List.mem_map_of_mem _ (List.mem_filter.2 ⟨hitem, hneeds⟩)
      have hand := mem_orList_and hmem
      rw [← neededPrefixes_singleton he] at hand
      have hnz : item.pfx ≠ 0 :=
        (cssPrefixTable_facts _ (CssDecls.mem_of_lookup hl) item hitem).2
      have hne : neededPrefixes [(e, below)] items ≠ 0 := by
        intro h0
        rw [h0, Nat.zero_and] at hand
        exact hnz hand.symm
      exact ⟨_, by simp [hne], hand⟩

/-- C16 (amended) at Safari 15.4.0 and `DPrintColorAdjust`. -/
theorem C16_strict_cutoff_witness :
    (CSSPrefixData [(Engine.Safari, ⟨15, 4, 0⟩)]).lookup D.DPrintColorAdjust = none ∧
    (∀ below, versionLt below ⟨15, 4, 0⟩ →
      ∀ item ∈ (cssPrefixTable.lookup D.DPrintColorAdjust).getD [],
      item.engine = Engine.Safari →
      ∃ x, (CSSPrefixData [(Engine.Safari, below)]).lookup D.DPrintColorAdjust = some x ∧
        x &&& item.pfx = item.pfx) :=
  ⟨(C16_strict_cutoff Engine.Safari ⟨15, 4, 0⟩ D.DPrintColorAdjust rfl (by decide)
      (by decide)).1,
    (C16_strict_cutoff Engine.Safari ⟨15, 4, 0⟩ D.DPrintColorAdjust rfl (by decide)
      (by decide)).2.1⟩

/-- C17: `ApplyOverrides` forces exactly the masked bits: for 8-bit values it returns
`(base & ^mask) | (overrides & mask)`, where `^mask` is the 8-bit complement `255 - mask`;
every bit of the result is the bit of `overrides` where the bit of `mask` is set and the
bit of `base` where it is clear; so a zero mask returns `base`, and applying the same
overrides and mask twice equals applying them once. -/
theorem C17_apply_overrides (base overrides mask : Nat) (hb : base < 256)
    (ho : overrides < 256) (hm : mask < 256) :
    ApplyOverrides base overrides mask = (base &&& (255 - mask)) ||| (overrides &&& mask) ∧
    ApplyOverrides base overrides mask < 256 ∧
    (∀ i, (ApplyOverrides base overrides mask).testBit i
      = if mask.testBit i then overrides.testBit i else base.testBit i) ∧
    ApplyOverrides base overrides 0 = base ∧
    ApplyOverrides (ApplyOverrides base overrides mask) overrides mask
      = ApplyOverrides base overrides mask := by
  have hlt : ApplyOverrides base overrides mask < 256 := by
    unfold ApplyOverrides
    exact @Nat.or_lt_two_pow _ _ 8 (Nat.lt_of_le_of_lt Nat.and_le_left hb)
      (Nat.lt_of_le_of_lt Nat.and_le_left ho)
  refine ⟨?_, hlt, fun i => testBit_ApplyOverrides hb ho i, ?_, ?_⟩
  · unfold ApplyOverrides
    rw [xor_255 hm]
  · apply Nat.eq_of_testBit_eq
    intro i
    rw [testBit_ApplyOverrides hb ho]
    simp
  · apply Nat.eq_of_testBit_eq
    intro i
    rw [testBit_ApplyOverrides hlt ho, testBit_ApplyOverrides hb ho]
    cases mask.testBit i <;> simp

/-- C17 at base `0b01010101`, overrides `0b00001111`, mask `0b00110011`. -/
theorem C17_apply_overrides_witness :
    ApplyOverrides 85 15 51 = (85 &&& (255 - 51)) ||| (15 &&& 51) ∧
    ApplyOverrides 85 15 51 < 256 ∧
    (∀ i, (ApplyOverrides 85 15 51).testBit i
      = if (51 : Nat).testBit i then (15 : Nat).testBit i else (85 : Nat).testBit i) ∧
    ApplyOverrides 85 15 0 = 85 ∧
    ApplyOverrides (ApplyOverrides 85 15 51) 15 51 = ApplyOverrides 85 15 51 :=
  C17_apply_overrides 85 15 51 (by decide) (by decide) (by decide)

theorem neededPrefixes_nil_items (constraints : List (Engine × v)) :
    neededPrefixes constraints [] = 0 := by
  unfold neededPrefixes
  induction constraints.filter (fun constraint => constraint.1.IsBrowser) with
  | nil => rfl
  | cons x l ih => simpa [orList_cons, orList_nil] using ih

theorem prefixBits_eq (constraints : List (Engine × v)) (p : D) :
    prefixBits constraints p
      = neededPrefixes constraints ((cssPrefixTable.lookup p).getD []) := by
  unfold prefixBits
  rw [lookup_CSSPrefixData]
  cases List.lookup p cssPrefixTable with
  | none => simp [NoPrefix, neededPrefixes_nil_items]
  | some items =>
    simp only [Option.getD_some]
    split_ifs with h0
    · simp [NoPrefix, h0]
    · rfl

theorem orList_subset {l2 l1 : List Nat} (h : ∀ x ∈ l2, x ∈ l1) :
    orList l2 &&& orList l1 = orList l2 := by
  apply Nat.eq_of_testBit_eq
  intro i
  rw [Nat.testBit_and]
  cases h2 : (orList l2).testBit i with
  | false => rfl
  | true =>
    rw [testBit_orList, List.any_eq_true] at h2
    obtain ⟨x, hx, hbit⟩ := h2
    have : (orList l1).testBit i = true := by
      rw [testBit_orList, List.any_eq_true]
      exact ⟨x, h x hx, hbit⟩
    rw [this]; rfl

theorem needsPrefix_mono {e : Engine} {v1 v2 : v} (hle : ¬ versionLt v2 v1) {item : prefixData}
    (h : needsPrefix (e, v2) item = true) : needsPrefix (e, v1) item = true := by
  unfold needsPrefix at h ⊢
  simp only [Bool.and_eq_true, Bool.or_eq_true, decide_eq_true_eq] at h ⊢
  refine ⟨h.1, ?_⟩
  rcases h.2 with h0 | hlt
  · exact Or.inl h0
  · right
    unfold versionLt at hle hlt ⊢
    omega

/-- C21: raising a target version never adds a prefix: for an engine `e`, versions
`v1 <= v2` in the lexicographic order on (major, minor, patch) and a property `p`, the
prefix bits of `CSSPrefixData {e: v2}` for `p` (`NoPrefix` if absent) are a subset of the
prefix bits of `CSSPrefixData {e: v1}` for `p`. -/
theorem C21_raising_version_adds_no_prefix (e : Engine) (v1 v2 : v) (p : D)
    (hle : ¬ versionLt v2 v1) :
    prefixBits [(e, v2)] p &&& prefixBits [(e, v1)] p = prefixBits [(e, v2)] p := by
  rw [prefixBits_eq, prefixBits_eq]
  cases he : e.IsBrowser with
  | false =>
    have h0 : ∀ ver items, neededPrefixes [(e, ver)] items = 0 := by
      intro ver items
      unfold neededPrefixes
      simp [List.filter_cons, he, orList_nil]
    rw [h0, h0]
    rfl
  | true =>
    rw [neededPrefixes_singleton he, neededPrefixes_singleton he]
    apply orList_subset
    intro x hx
    rw [List.mem_map] at hx ⊢
    obtain ⟨item, hitem, rfl⟩ := hx
    rw [List.mem_filter] at hitem
    exact ⟨item, List.mem_filter.2 ⟨hitem.1, needsPrefix_mono hle hitem.2⟩, rfl⟩

/-- C21 at Safari 15.3.0 and 15.4.0 for `DAppearance`: the prefix is dropped, not added. -/
theorem C21_raising_version_adds_no_prefix_witness :
    prefixBits [(Engine.Safari, ⟨15, 4, 0⟩)] D.DAppearance &&&
        prefixBits [(Engine.Safari, ⟨15, 3, 0⟩)] D.DAppearance
      = prefixBits [(Engine.Safari, ⟨15, 4, 0⟩)] D.DAppearance :=
  C21_raising_version_adds_no_prefix Engine.Safari ⟨15, 3, 0⟩ ⟨15, 4, 0⟩ D.DAppearance
    (by decide)

end Compat
